import Mathlib

/-!
Verification of the talking-avatar animation core (viseme timeline builder,
playback sampler, gesture state machine, noise utilities) against its
natural-language specification.

All timing and amplitude arithmetic is modelled over `ℚ` (the source uses JS
numbers; the specified properties are exact arithmetic facts).  The noise
utilities (which call `Math.sin`) are modelled over `ℝ`.
-/

namespace AvatarCore

/-- The closed set of phonetic categories (visemes) from `src/types`. -/
inductive Viseme where
  | sil | PP | FF | TH | DD | kk | CH | SS | nn | RR | aa | E | I | O | U
  deriving DecidableEq, Repr

/-- `CHAR_TO_VISEME` from `visemeMapper`: single-character lookup table
(keys are lowercase); `none` models a missing key. -/
def charTableLookup (c : Char) : Option Viseme :=
  match c with
  | 'p' | 'b' | 'm' => some .PP
  | 'f' | 'v' => some .FF
  | 't' | 'd' => some .DD
  | 'k' | 'g' | 'c' | 'q' | 'x' => some .kk
  | 'j' => some .CH
  | 's' | 'z' => some .SS
  | 'n' | 'l' => some .nn
  | 'r' => some .RR
  | 'a' => some .aa
  | 'e' => some .E
  | 'i' => some .I
  | 'o' => some .O
  | 'u' => some .U
  | 'w' => some .U
  | 'y' => some .I
  | 'h' => some .sil
  | ' ' | '.' | ',' | '!' | '?' | '-' | '"' | '\'' | '\n' | '\t' => some .sil
  | _ => none

/-- `DIGRAPH_TO_VISEME` from `visemeMapper`: two-character lookup table. -/
def digraphTableLookup (a b : Char) : Option Viseme :=
  match a, b with
  | 't', 'h' => some .TH
  | 's', 'h' => some .CH
  | 'c', 'h' => some .CH
  | 'z', 'h' => some .CH
  | 'n', 'g' => some .kk
  | 'p', 'h' => some .FF
  | 'w', 'h' => some .U
  | 'c', 'k' => some .kk
  | 'q', 'u' => some .kk
  | 'e', 'e' => some .I
  | 'e', 'a' => some .I
  | 'o', 'o' => some .U
  | 'o', 'u' => some .O
  | 'o', 'w' => some .O
  | 'a', 'i' => some .E
  | 'a', 'y' => some .E
  | 'o', 'i' => some .O
  | 'o', 'y' => some .O
  | 'a', 'u' => some .aa
  | 'a', 'w' => some .aa
  | _, _ => none

/-- `charToViseme` from `visemeMapper`: lowercase, single-character table,
falling back to silence. -/
def charToViseme (c : Char) : Viseme :=
  (charTableLookup c.toLower).getD .sil

/-- `getVisemeAtIndex` from `visemeMapper`: digraph table consulted first
(consuming two positions, reported by the boolean), then the
single-character table, then silence. -/
def getVisemeAtIndex (text : List Char) (index : ℕ) : Viseme × Bool :=
  match text.get? index, text.get? (index + 1) with
  | some a, some b =>
    match digraphTableLookup a.toLower b.toLower with
    | some v => (v, true)
    | none => ((charTableLookup a.toLower).getD .sil, false)
  | some a, none => ((charTableLookup a.toLower).getD .sil, false)
  | none, _ => (.sil, false)

/-- `VISEME_JAW_ROTATION` from `visemeMapper`. -/
def VISEME_JAW_ROTATION : Viseme → ℚ
  | .sil => 0
  | .PP => 0.02
  | .FF => 0.05
  | .TH => 0.08
  | .DD => 0.12
  | .kk => 0.15
  | .CH => 0.18
  | .SS => 0.10
  | .nn => 0.08
  | .RR => 0.12
  | .aa => 0.35
  | .E => 0.25
  | .I => 0.15
  | .O => 0.30
  | .U => 0.20

/-- `opennessToViseme` from `visemeMapper`. -/
def opennessToViseme (openness : ℚ) : Viseme :=
  if openness < 0.1 then .sil
  else if openness < 0.2 then .SS
  else if openness < 0.35 then .I
  else if openness < 0.5 then .E
  else if openness < 0.7 then .O
  else .aa

/-- `VisemeCue` from `src/types`: one mouth event on the timeline. -/
structure VisemeCue where
  viseme : Viseme
  startTime : ℚ
  endTime : ℚ
  deriving DecidableEq, Repr

/-- `AlignmentData` from `src/types`: parallel character / start / end arrays.
An out-of-range index models the `undefined` array access of the source. -/
structure AlignmentData where
  characters : List Char
  character_start_times_seconds : List ℚ
  character_end_times_seconds : List ℚ
  deriving DecidableEq, Repr

/-- The raw-cue loop of `generateVisemeTimeline`: one cue per character,
skipping entries whose timing is undefined or has `startTime ≥ endTime`. -/
def rawCues (a : AlignmentData) : List VisemeCue :=
  (List.range a.characters.length).filterMap fun i =>
    match a.characters.get? i, a.character_start_times_seconds.get? i,
          a.character_end_times_seconds.get? i with
    | some c, some s, some e =>
      if s ≥ e then none else some ⟨charToViseme c, s, e⟩
    | _, _, _ => none

/-- The merge loop of `generateVisemeTimeline`: `last` is the cue most
recently pushed onto `mergedCues`; a same-viseme cue within 50 ms extends
its end time instead of being pushed. -/
def mergeAux (last : VisemeCue) : List VisemeCue → List VisemeCue
  | [] => [last]
  | c :: rest =>
    if last.viseme = c.viseme ∧ |last.endTime - c.startTime| < 0.05 then
      mergeAux ⟨last.viseme, last.startTime, c.endTime⟩ rest
    else
      last :: mergeAux c rest

def mergeCues : List VisemeCue → List VisemeCue
  | [] => []
  | c :: rest => mergeAux c rest

/-- The `unshift` step of `generateVisemeTimeline`: prepend a silence cue
covering `[0, firstStart)` when the first cue starts after 0. -/
def prependSilence : List VisemeCue → List VisemeCue
  | [] => []
  | first :: rest =>
    if first.startTime > 0 then ⟨.sil, 0, first.startTime⟩ :: first :: rest
    else first :: rest

/-- The gap-filling loop of `generateVisemeTimeline`: `prev` is the cue most
recently pushed from `mergedCues`; a silence cue is inserted before `c` only
when the gap exceeds 10 ms. -/
def fillAux (prev : VisemeCue) : List VisemeCue → List VisemeCue
  | [] => []
  | c :: rest =>
    if c.startTime > prev.endTime + 0.01 then
      ⟨.sil, prev.endTime, c.startTime⟩ :: c :: fillAux c rest
    else
      c :: fillAux c rest

def fillGaps : List VisemeCue → List VisemeCue
  | [] => []
  | c :: rest => c :: fillAux c rest

/-- `generateVisemeTimeline` from `visemeTimeline`. -/
def generateVisemeTimeline (a : AlignmentData) : List VisemeCue :=
  if a.characters.length = 0 then []
  else fillGaps (prependSilence (mergeCues (rawCues a)))

/-- Result record of `getVisemeAtTime`. -/
structure VisemeSample where
  viseme : Viseme
  progress : ℚ
  nextViseme : Option Viseme
  deriving DecidableEq, Repr

/-- The scan loop of `getVisemeAtTime`: first cue with
`startTime ≤ time < endTime`, its progress, and the following cue's viseme. -/
def findSample (time : ℚ) : List VisemeCue → Option VisemeSample
  | [] => none
  | c :: rest =>
    if c.startTime ≤ time ∧ time < c.endTime then
      some ⟨c.viseme,
        if c.endTime - c.startTime > 0 then
          (time - c.startTime) / (c.endTime - c.startTime)
        else 1,
        (rest.head?).map (fun n => n.viseme)⟩
    else
      findSample time rest

/-- `getVisemeAtTime` from `visemeTimeline`. -/
def getVisemeAtTime (cues : List VisemeCue) (time : ℚ) : VisemeSample :=
  match cues with
  | [] => ⟨.sil, 1, none⟩
  | c :: rest =>
    match findSample time (c :: rest) with
    | some s => s
    | none =>
      if time ≥ ((c :: rest).getLast (List.cons_ne_nil c rest)).endTime then
        ⟨.sil, 1, none⟩
      else
        ⟨.sil, 1, some c.viseme⟩

/-- `getInterpolatedJawRotation` from `visemeTimeline` (the default
`transitionStart` is 0.7). -/
def getInterpolatedJawRotation (currentViseme : Viseme) (nextViseme : Option Viseme)
    (progress : ℚ) (transitionStart : ℚ := 0.7) : ℚ :=
  let currentRotation := VISEME_JAW_ROTATION currentViseme
  match nextViseme with
  | none => currentRotation
  | some nv =>
    if progress < transitionStart then currentRotation
    else
      let nextRotation := VISEME_JAW_ROTATION nv
      let transitionProgress := (progress - transitionStart) / (1 - transitionStart)
      let easedProgress := 1 - (1 - transitionProgress) ^ 2
      currentRotation + (nextRotation - currentRotation) * easedProgress

/-- `MouthShape` from `src/types`: the coarse display bucket. -/
inductive MouthShape where
  | closed | small | medium | wide
  deriving DecidableEq, Repr

/-- `getMouthShapeFromAmplitude` from `useLipSync` (`THRESHOLDS` are
closed = 15, small = 35, medium = 60). -/
def getMouthShapeFromAmplitude (amplitude : ℚ) : MouthShape :=
  if amplitude < 15 then .closed
  else if amplitude < 35 then .small
  else if amplitude < 60 then .medium
  else .wide

/-- The outputs of the amplitude-based fallback branch of `analyzeAudio`. -/
structure FallbackSample where
  mouthShape : MouthShape
  openness : ℚ
  viseme : Viseme
  jawRotation : ℚ
  deriving DecidableEq, Repr

/-- The amplitude-based fallback branch of `analyzeAudio` in `useLipSync`,
as a function of the (already smoothed) amplitude. -/
def amplitudeFallback (smoothedAmplitude : ℚ) : FallbackSample :=
  let shape := getMouthShapeFromAmplitude smoothedAmplitude
  let openness := min 1 (max 0 (smoothedAmplitude / 80))
  let viseme := opennessToViseme openness
  ⟨shape, openness, viseme, VISEME_JAW_ROTATION viseme⟩

/-- Gesture trigger kinds from `findGestureTriggers` / `useAnimationState`. -/
inductive TriggerKind where
  | emphasis | question | exclaim
  deriving DecidableEq, Repr

/-- `GestureTrigger` from `useAnimationState`. -/
structure GestureTrigger where
  time : ℚ
  type : TriggerKind
  deriving DecidableEq, Repr

/-- The mutable state of the `useLipSync` hook: `useState` values plus the
refs that survive across animation frames.  (`startTime` is the
`startTimeRef`; audio/DOM handles are outside the model.) -/
structure LipSyncState where
  isPlaying : Bool
  smoothedAmplitude : ℚ
  previousJawRotation : ℚ
  visemeCues : Option (List VisemeCue)
  startTime : ℚ
  mouthShape : MouthShape
  mouthOpenness : ℚ
  currentViseme : Viseme
  jawRotation : ℚ
  amplitude : ℚ
  playbackTime : ℚ
  gestureTriggers : List GestureTrigger
  deriving DecidableEq, Repr

/-- The initial values of the `useLipSync` states and refs (a fresh engine
instance). -/
def initialLipSyncState : LipSyncState :=
  { isPlaying := false
    smoothedAmplitude := 0
    previousJawRotation := 0
    visemeCues := none
    startTime := 0
    mouthShape := .closed
    mouthOpenness := 0
    currentViseme := .sil
    jawRotation := 0
    amplitude := 0
    playbackTime := 0
    gestureTriggers := [] }

/-- `stopAudio` from `useLipSync`: clears the playback flag, the smoothing
refs, the cue sequence and all displayed sample state.  (`startTimeRef` is
not touched by `stopAudio`.) -/
def stopAudio (s : LipSyncState) : LipSyncState :=
  { s with
    isPlaying := false
    smoothedAmplitude := 0
    previousJawRotation := 0
    visemeCues := none
    mouthShape := .closed
    mouthOpenness := 0
    currentViseme := .sil
    jawRotation := 0
    amplitude := 0
    playbackTime := 0
    gestureTriggers := [] }

/-- The state effect of `playAudio` from `useLipSync`: store the cue
sequence and triggers, record the start time and raise the playing flag.
(Audio decoding and node wiring are outside the model; the trigger list
stands for `findGestureTriggers(alignmentData)` or `[]`.) -/
def playAudio (cues : Option (List VisemeCue)) (triggers : List GestureTrigger)
    (now : ℚ) (s : LipSyncState) : LipSyncState :=
  { s with
    visemeCues := cues
    gestureTriggers := triggers
    isPlaying := true
    startTime := now }

/-- One `analyzeAudio` tick from `useLipSync`: smooth the raw amplitude
(`SMOOTHING_FACTOR = 0.3`), compute the playback time, then either sample
the viseme timeline (precise mode) or fall back to amplitude mapping. -/
def analyzeAudio (rawAmplitude audioNow : ℚ) (s : LipSyncState) : LipSyncState :=
  let smoothed := s.smoothedAmplitude * 0.3 + rawAmplitude * (1 - 0.3)
  let currentTime := audioNow - s.startTime
  match s.visemeCues with
  | some (c :: cs) =>
    let r := getVisemeAtTime (c :: cs) currentTime
    let targetJaw := getInterpolatedJawRotation r.viseme r.nextViseme r.progress
    let smoothedJaw := s.previousJawRotation * 0.3 + targetJaw * 0.7
    let openness := min 1 (smoothedJaw / 0.35)
    { s with
      smoothedAmplitude := smoothed
      amplitude := smoothed
      playbackTime := currentTime
      currentViseme := r.viseme
      previousJawRotation := smoothedJaw
      jawRotation := smoothedJaw
      mouthOpenness := openness
      mouthShape := getMouthShapeFromAmplitude (openness * 80) }
  | _ =>
    let fb := amplitudeFallback smoothed
    { s with
      smoothedAmplitude := smoothed
      amplitude := smoothed
      playbackTime := currentTime
      mouthShape := fb.mouthShape
      mouthOpenness := fb.openness
      currentViseme := fb.viseme
      jawRotation := fb.jawRotation }

/-- `GestureType` from `src/types`. -/
inductive GestureType where
  | armFlailLeft | armFlailRight | armFlailBoth
  | headShake | headNod
  | pointLeft | pointRight
  | shrug | leanForward | leanBack
  deriving DecidableEq, Repr

/-- One per-bone rotation entry of a `GestureKeyframe` (each axis optional,
as in the source). -/
structure BoneRotation where
  bone : String
  x : Option ℚ := none
  y : Option ℚ := none
  z : Option ℚ := none
  deriving DecidableEq, Repr

/-- `GestureKeyframe` from `data/gestures`. -/
structure GestureKeyframe where
  time : ℚ
  rotations : List BoneRotation
  deriving DecidableEq, Repr

/-- `GestureDefinition` from `data/gestures`. -/
structure GestureDefinition where
  type : GestureType
  duration : ℚ
  keyframes : List GestureKeyframe
  canInterrupt : Bool
  priority : ℤ
  deriving DecidableEq, Repr

/-- `easings.easeInOut` from `data/gestures` (the default easing of
`interpolateKeyframes`). -/
def easeInOut (t : ℚ) : ℚ :=
  if t < 0.5 then 2 * t * t else 1 - (-2 * t + 2) ^ 2 / 2

/-- `GESTURE_LIBRARY` from `data/gestures`. -/
def GESTURE_LIBRARY : GestureType → GestureDefinition
  | .armFlailLeft =>
    { type := .armFlailLeft, duration := 0.4, canInterrupt := true, priority := 2
      keyframes := [
        ⟨0, [⟨"leftArm", some 0, none, some 1.2⟩, ⟨"leftForeArm", none, some 0, some 0.3⟩]⟩,
        ⟨0.2, [⟨"leftArm", some (-0.5), none, some 0.3⟩, ⟨"leftForeArm", none, some 0.3, some 0.8⟩]⟩,
        ⟨0.5, [⟨"leftArm", some 0.3, none, some 0.6⟩, ⟨"leftForeArm", none, some (-0.2), some 0.5⟩]⟩,
        ⟨1, [⟨"leftArm", some 0, none, some 1.2⟩, ⟨"leftForeArm", none, some 0, some 0.3⟩]⟩] }
  | .armFlailRight =>
    { type := .armFlailRight, duration := 0.4, canInterrupt := true, priority := 2
      keyframes := [
        ⟨0, [⟨"rightArm", some 0, none, some (-1.2)⟩, ⟨"rightForeArm", none, some 0, some (-0.3)⟩]⟩,
        ⟨0.2, [⟨"rightArm", some (-0.5), none, some (-0.3)⟩, ⟨"rightForeArm", none, some (-0.3), some (-0.8)⟩]⟩,
        ⟨0.5, [⟨"rightArm", some 0.3, none, some (-0.6)⟩, ⟨"rightForeArm", none, some 0.2, some (-0.5)⟩]⟩,
        ⟨1, [⟨"rightArm", some 0, none, some (-1.2)⟩, ⟨"rightForeArm", none, some 0, some (-0.3)⟩]⟩] }
  | .armFlailBoth =>
    { type := .armFlailBoth, duration := 0.5, canInterrupt := false, priority := 3
      keyframes := [
        ⟨0, [⟨"leftArm", none, none, some 1.2⟩, ⟨"rightArm", none, none, some (-1.2)⟩, ⟨"spine2", some 0, none, none⟩]⟩,
        ⟨0.15, [⟨"leftArm", some (-0.4), none, some 0.2⟩, ⟨"rightArm", some (-0.4), none, some (-0.2)⟩, ⟨"spine2", some (-0.1), none, none⟩]⟩,
        ⟨0.4, [⟨"leftArm", some 0.3, none, some 0.5⟩, ⟨"rightArm", some 0.3, none, some (-0.5)⟩, ⟨"spine2", some 0.1, none, none⟩]⟩,
        ⟨1, [⟨"leftArm", none, none, some 1.2⟩, ⟨"rightArm", none, none, some (-1.2)⟩, ⟨"spine2", some 0, none, none⟩]⟩] }
  | .headShake =>
    { type := .headShake, duration := 0.3, canInterrupt := true, priority := 1
      keyframes := [
        ⟨0, [⟨"head", none, some 0, none⟩]⟩,
        ⟨0.15, [⟨"head", none, some 0.2, none⟩]⟩,
        ⟨0.35, [⟨"head", none, some (-0.2), none⟩]⟩,
        ⟨0.55, [⟨"head", none, some 0.15, none⟩]⟩,
        ⟨0.75, [⟨"head", none, some (-0.1), none⟩]⟩,
        ⟨1, [⟨"head", none, some 0, none⟩]⟩] }
  | .headNod =>
    { type := .headNod, duration := 0.25, canInterrupt := true, priority := 1
      keyframes := [
        ⟨0, [⟨"head", some 0, none, none⟩]⟩,
        ⟨0.3, [⟨"head", some 0.15, none, none⟩]⟩,
        ⟨0.6, [⟨"head", some (-0.05), none, none⟩]⟩,
        ⟨1, [⟨"head", some 0, none, none⟩]⟩] }
  | .pointLeft =>
    { type := .pointLeft, duration := 0.5, canInterrupt := true, priority := 2
      keyframes := [
        ⟨0, [⟨"leftArm", some 0, some 0, some 1.2⟩, ⟨"leftForeArm", none, none, some 0.3⟩, ⟨"leftHand", none, none, some 0⟩]⟩,
        ⟨0.3, [⟨"leftArm", some (-0.3), some 0.5, some 0.4⟩, ⟨"leftForeArm", none, none, some 0.1⟩, ⟨"leftHand", none, none, some (-0.2)⟩]⟩,
        ⟨0.7, [⟨"leftArm", some (-0.3), some 0.5, some 0.4⟩, ⟨"leftForeArm", none, none, some 0.1⟩, ⟨"leftHand", none, none, some (-0.2)⟩]⟩,
        ⟨1, [⟨"leftArm", some 0, some 0, some 1.2⟩, ⟨"leftForeArm", none, none, some 0.3⟩, ⟨"leftHand", none, none, some 0⟩]⟩] }
  | .pointRight =>
    { type := .pointRight, duration := 0.5, canInterrupt := true, priority := 2
      keyframes := [
        ⟨0, [⟨"rightArm", some 0, some 0, some (-1.2)⟩, ⟨"rightForeArm", none, none, some (-0.3)⟩, ⟨"rightHand", none, none, some 0⟩]⟩,
        ⟨0.3, [⟨"rightArm", some (-0.3), some (-0.5), some (-0.4)⟩, ⟨"rightForeArm", none, none, some (-0.1)⟩, ⟨"rightHand", none, none, some 0.2⟩]⟩,
        ⟨0.7, [⟨"rightArm", some (-0.3), some (-0.5), some (-0.4)⟩, ⟨"rightForeArm", none, none, some (-0.1)⟩, ⟨"rightHand", none, none, some 0.2⟩]⟩,
        ⟨1, [⟨"rightArm", some 0, some 0, some (-1.2)⟩, ⟨"rightForeArm", none, none, some (-0.3)⟩, ⟨"rightHand", none, none, some 0⟩]⟩] }
  | .shrug =>
    { type := .shrug, duration := 0.4, canInterrupt := true, priority := 2
      keyframes := [
        ⟨0, [⟨"leftShoulder", none, some 0, none⟩, ⟨"rightShoulder", none, some 0, none⟩, ⟨"head", none, none, some 0⟩]⟩,
        ⟨0.25, [⟨"leftShoulder", none, some 0.3, none⟩, ⟨"rightShoulder", none, some (-0.3), none⟩, ⟨"head", none, none, some 0.1⟩]⟩,
        ⟨0.6, [⟨"leftShoulder", none, some 0.25, none⟩, ⟨"rightShoulder", none, some (-0.25), none⟩, ⟨"head", none, none, some 0.08⟩]⟩,
        ⟨1, [⟨"leftShoulder", none, some 0, none⟩, ⟨"rightShoulder", none, some 0, none⟩, ⟨"head", none, none, some 0⟩]⟩] }
  | .leanForward =>
    { type := .leanForward, duration := 0.3, canInterrupt := true, priority := 1
      keyframes := [
        ⟨0, [⟨"spine", some 0, none, none⟩, ⟨"spine1", some 0, none, none⟩, ⟨"neck", some 0, none, none⟩]⟩,
        ⟨0.4, [⟨"spine", some 0.1, none, none⟩, ⟨"spine1", some 0.08, none, none⟩, ⟨"neck", some 0.05, none, none⟩]⟩,
        ⟨0.7, [⟨"spine", some 0.1, none, none⟩, ⟨"spine1", some 0.08, none, none⟩, ⟨"neck", some 0.05, none, none⟩]⟩,
        ⟨1, [⟨"spine", some 0, none, none⟩, ⟨"spine1", some 0, none, none⟩, ⟨"neck", some 0, none, none⟩]⟩] }
  | .leanBack =>
    { type := .leanBack, duration := 0.3, canInterrupt := true, priority := 1
      keyframes := [
        ⟨0, [⟨"spine", some 0, none, none⟩, ⟨"spine1", some 0, none, none⟩, ⟨"neck", some 0, none, none⟩]⟩,
        ⟨0.4, [⟨"spine", some (-0.08), none, none⟩, ⟨"spine1", some (-0.06), none, none⟩, ⟨"neck", some (-0.04), none, none⟩]⟩,
        ⟨0.7, [⟨"spine", some (-0.08), none, none⟩, ⟨"spine1", some (-0.06), none, none⟩, ⟨"neck", some (-0.04), none, none⟩]⟩,
        ⟨1, [⟨"spine", some 0, none, none⟩, ⟨"spine1", some 0, none, none⟩, ⟨"neck", some 0, none, none⟩]⟩] }

/-- Interpolation of one optional axis between two keyframes: linear when
present in both, pass-through when present in only one. -/
def lerpAxis (a b : Option ℚ) (t : ℚ) : Option ℚ :=
  match a, b with
  | some av, some bv => some (av + (bv - av) * t)
  | some av, none => some av
  | none, some bv => some bv
  | none, none => none

/-- The per-bone rotation value. -/
structure Rot where
  x : Option ℚ := none
  y : Option ℚ := none
  z : Option ℚ := none
  deriving DecidableEq, Repr

/-- Insertion-ordered union of the bone names of two keyframes (the `Set`
built by `interpolateKeyframes`). -/
def boneNameUnion (l : List String) : List String :=
  l.foldl (fun acc a => if a ∈ acc then acc else acc ++ [a]) []

/-- The loop body of `interpolateKeyframes` for one bone name: linear
interpolation of the axes present in both keyframes at eased parameter `t`,
pass-through of a bone or axis present in only one keyframe. -/
def interpBone (kf1 kf2 : GestureKeyframe) (t : ℚ) (boneName : String) : Rot :=
  match kf1.rotations.find? (fun r => r.bone = boneName),
        kf2.rotations.find? (fun r => r.bone = boneName) with
  | some rot1, some rot2 =>
    ⟨lerpAxis rot1.x rot2.x t, lerpAxis rot1.y rot2.y t, lerpAxis rot1.z rot2.z t⟩
  | some rot1, none => ⟨rot1.x, rot1.y, rot1.z⟩
  | none, some rot2 => ⟨rot2.x, rot2.y, rot2.z⟩
  | none, none => ⟨none, none, none⟩

/-- `interpolateKeyframes` from `data/gestures`, as an insertion-ordered
association list (the source returns a JS `Map`).  The default easing is
`easeInOut`. -/
def interpolateKeyframes (kf1 kf2 : GestureKeyframe) (progress : ℚ)
    (easing : ℚ → ℚ := easeInOut) : List (String × Rot) :=
  let t := easing progress
  let boneNames := boneNameUnion
    (kf1.rotations.map (fun r => r.bone) ++ kf2.rotations.map (fun r => r.bone))
  boneNames.map fun boneName => (boneName, interpBone kf1 kf2 t boneName)

/-- Lookup in the association list standing for the source's `Map`. -/
def lookupBone (rotations : List (String × Rot)) (bone : String) : Option Rot :=
  (rotations.find? (fun p => p.1 = bone)).map (fun p => p.2)

/-- The bracketing-pair scan of `getGestureRotations`: the first adjacent
pair `(kf_i, kf_i+1)` with `kf_i.time ≤ progress ≤ kf_i+1.time`. -/
def findBracket (progress : ℚ) : List GestureKeyframe → Option (GestureKeyframe × GestureKeyframe)
  | a :: b :: rest =>
    if progress ≥ a.time ∧ progress ≤ b.time then some (a, b)
    else findBracket progress (b :: rest)
  | _ => none

/-- `getGestureRotations` from `data/gestures`: bracket the progress (with
`(keyframes[0], keyframes[last])` when no adjacent pair brackets it),
compute the local progress (0 on a degenerate interval), and interpolate.
The source throws on an empty keyframe list (spec §7d programmer error);
the model returns `[]` there. -/
def getGestureRotations (gesture : GestureDefinition) (progress : ℚ) : List (String × Rot) :=
  match gesture.keyframes with
  | [] => []
  | k0 :: ks =>
    let kLast := (k0 :: ks).getLast (List.cons_ne_nil k0 ks)
    let pair := (findBracket progress (k0 :: ks)).getD (k0, kLast)
    let kf1 := pair.1
    let kf2 := pair.2
    let localProgress :=
      if kf2.time > kf1.time then (progress - kf1.time) / (kf2.time - kf1.time) else 0
    interpolateKeyframes kf1 kf2 localProgress

/-- `Gesture` from `src/types` (an active or queued gesture instance). -/
structure Gesture where
  type : GestureType
  duration : ℚ
  intensity : ℚ
  deriving DecidableEq, Repr

/-- The intensity scaling applied by `getCurrentGestureRotations` in
`useAnimationState` (skipped when the intensity is exactly 1). -/
def applyIntensity (intensity : ℚ) (rotations : List (String × Rot)) : List (String × Rot) :=
  if intensity = 1 then rotations
  else rotations.map fun br =>
    (br.1, ⟨(br.2.x).map (· * intensity), (br.2.y).map (· * intensity), (br.2.z).map (· * intensity)⟩)

/-- `getCurrentGestureRotations` from `useAnimationState`, for an active
gesture at a given progress. -/
def getCurrentGestureRotations (active : Gesture) (gestureProgress : ℚ) : List (String × Rot) :=
  applyIntensity active.intensity (getGestureRotations (GESTURE_LIBRARY active.type) gestureProgress)

/-- `AnimationState` from `src/types`: the coarse state. -/
inductive AnimationState where
  | idle | speaking | agitated
  deriving DecidableEq, Repr

/-- The mutable state of the `useAnimationState` hook (states and refs). -/
structure AnimMachineState where
  animationState : AnimationState
  activeGesture : Option Gesture
  gestureQueue : List Gesture
  gestureStartTime : Option ℚ
  gestureProgress : ℚ
  processedTriggers : List ℚ
  lastTwitchTime : ℚ
  deriving DecidableEq, Repr

/-- The initial `useAnimationState` state (a fresh engine instance). -/
def initialAnimState : AnimMachineState :=
  { animationState := .idle
    activeGesture := none
    gestureQueue := []
    gestureStartTime := none
    gestureProgress := 0
    processedTriggers := []
    lastTwitchTime := 0 }

/-- The coarse-state effect of `useAnimationState`: playing with
amplitude > 60 is agitated, playing otherwise speaking; not playing is idle
and clears the trigger-dedup set.  Nothing else is touched. -/
def updateAnimationState (isPlaying : Bool) (amplitude : ℚ)
    (s : AnimMachineState) : AnimMachineState :=
  if isPlaying then
    if amplitude > 60 then { s with animationState := .agitated }
    else { s with animationState := .speaking }
  else
    { s with animationState := .idle, processedTriggers := [] }

/-- `queueGesture` from `useAnimationState`.  `now` models
`performance.now()`.  (In the source `GESTURE_LIBRARY[type]` can never be
absent for a `GestureType`, and the active gesture's `?.priority || 0`
fallback never fires, so both lookups are total here.) -/
def queueGesture (now : ℚ) (type : GestureType) (intensity : ℚ)
    (s : AnimMachineState) : AnimMachineState :=
  let definition := GESTURE_LIBRARY type
  let gesture : Gesture := ⟨type, definition.duration, intensity⟩
  match s.activeGesture with
  | none =>
    { s with activeGesture := some gesture, gestureStartTime := some now, gestureProgress := 0 }
  | some active =>
    if definition.priority > (GESTURE_LIBRARY active.type).priority then
      { s with activeGesture := some gesture, gestureStartTime := some now, gestureProgress := 0 }
    else
      { s with gestureQueue := s.gestureQueue ++ [gesture] }

/-- The trigger-processing loop of `useAnimationState`, restricted to what
is deterministic: walk the trigger list; an unconsumed trigger whose window
`[time − 0.05, time + 0.2]` contains the playback time is marked consumed
and collected as fired.  (Whether a fired trigger actually queues a gesture
is gated by `Math.random()` against the preset probability; consumption
happens regardless.)  Returns the new dedup set and the fired triggers in
order. -/
def processTriggersStep (playbackTime : ℚ) :
    List GestureTrigger → List ℚ → List ℚ × List GestureTrigger
  | [], processed => (processed, [])
  | trigger :: rest, processed =>
    if trigger.time ∈ processed then
      processTriggersStep playbackTime rest processed
    else if playbackTime ≥ trigger.time - 0.05 ∧ playbackTime ≤ trigger.time + 0.2 then
      let next := processTriggersStep playbackTime rest (trigger.time :: processed)
      (next.1, trigger :: next.2)
    else
      processTriggersStep playbackTime rest processed

/-- Iterated trigger processing across the playback times of one utterance
(the effect re-runs whenever `playbackTime` changes while playing). -/
def triggerRun (triggers : List GestureTrigger) (processed : List ℚ) :
    List ℚ → List ℚ × List GestureTrigger
  | [] => (processed, [])
  | t :: ts =>
    let step := processTriggersStep t triggers processed
    let rest := triggerRun triggers step.1 ts
    (rest.1, step.2 ++ rest.2)

/-- The combined per-avatar engine state: the `useLipSync` state together
with the `useAnimationState` state. -/
structure EngineState where
  lipSync : LipSyncState
  anim : AnimMachineState
  deriving DecidableEq, Repr

/-- Stopping playback: `stopAudio` on the lip-sync state, after which the
coarse-state effect of `useAnimationState` observes `isPlaying = false`. -/
def stopEngine (e : EngineState) : EngineState :=
  let ls := stopAudio e.lipSync
  ⟨ls, updateAnimationState ls.isPlaying ls.amplitude e.anim⟩

/-- The inner `hash` of `noise`: `sin(n + seed) * 43758.5453` minus its
floor. -/
noncomputable def noiseHash (seed n : ℝ) : ℝ :=
  Int.fract (Real.sin (n + seed) * 43758.5453)

/-- `noise` from `useAnimationState`: smoothstep blend of the hashes of the
two integers surrounding `x`.  (The in-code comment says "Returns value
between -1 and 1".) -/
noncomputable def noise (x : ℝ) (seed : ℝ := 0) : ℝ :=
  let xi : ℝ := (⌊x⌋ : ℤ)
  let xf := x - xi
  let t := xf * xf * (3 - 2 * xf)
  noiseHash seed xi * (1 - t) + noiseHash seed (xi + 1) * t

/-- The four loop variables of `fbmNoise`. -/
structure FbmAcc where
  total : ℝ
  amplitude : ℝ
  maxValue : ℝ
  frequency : ℝ

/-- The loop of `fbmNoise` after `n` iterations (iteration `i` adds octave
`i`, then multiplies the amplitude by the persistence and doubles the
frequency). -/
noncomputable def fbmIter (x seed persistence : ℝ) : ℕ → FbmAcc
  | 0 => ⟨0, 1, 0, 1⟩
  | i + 1 =>
    let acc := fbmIter x seed persistence i
    ⟨acc.total + noise (x * acc.frequency) (seed + (i : ℝ) * 100) * acc.amplitude,
      acc.amplitude * persistence,
      acc.maxValue + acc.amplitude,
      acc.frequency * 2⟩

/-- `fbmNoise` from `useAnimationState` (defaults: 3 octaves, persistence
0.5, seed 0). -/
noncomputable def fbmNoise (x : ℝ) (octaves : ℕ := 3) (persistence : ℝ := 0.5)
    (seed : ℝ := 0) : ℝ :=
  let acc := fbmIter x seed persistence octaves
  acc.total / acc.maxValue

/-- Alignment input with a 5 ms gap between two different-category
characters (both entries valid and ordered). -/
def gapAlignment : AlignmentData := ⟨['a', 'b'], [0, 0.105], [0.1, 0.2]⟩

/-- The spec's own worked example: characters `h`, `i`, `!`. -/
def hiAlignment : AlignmentData := ⟨['h', 'i', '!'], [0, 0.2, 0.4], [0.2, 0.4, 0.5]⟩

/-- Alignment input spelling the digraph `th` over two contiguous
characters. -/
def thAlignment : AlignmentData := ⟨['t', 'h'], [0, 0.1], [0.1, 0.2]⟩

/-- A two-cue timeline used to exercise the sampler. -/
def sampleCues : List VisemeCue := [⟨.sil, 0, 0.1⟩, ⟨.aa, 0.1, 0.5⟩]

/-- An engine state mid-utterance with an active gesture and a queued
gesture. -/
def busyEngine : EngineState :=
  ⟨{ initialLipSyncState with isPlaying := true, smoothedAmplitude := 40 },
    { initialAnimState with
      animationState := .speaking
      activeGesture := some ⟨.shrug, 0.4, 1⟩
      gestureQueue := [⟨.headNod, 0.25, 1⟩]
      gestureStartTime := some 3
      gestureProgress := 0.5
      processedTriggers := [2] }⟩

/-- A machine state whose active gesture has priority 1 (`headNod`). -/
def lowPriorityActive : AnimMachineState :=
  { initialAnimState with
    animationState := .speaking
    activeGesture := some ⟨.headNod, 0.25, 1⟩
    gestureStartTime := some 2
    gestureProgress := 0.5 }

/-- A machine state whose active gesture has priority 3 (`armFlailBoth`). -/
def highPriorityActive : AnimMachineState :=
  { initialAnimState with
    animationState := .speaking
    activeGesture := some ⟨.armFlailBoth, 0.5, 1⟩
    gestureStartTime := some 2
    gestureProgress := 0.5 }

/-! ### Helper lemmas -/

theorem getMouthShapeFromAmplitude_spec (amp : ℚ) :
    (amp < 15 → getMouthShapeFromAmplitude amp = .closed)
    ∧ (15 ≤ amp → amp < 35 → getMouthShapeFromAmplitude amp = .small)
    ∧ (35 ≤ amp → amp < 60 → getMouthShapeFromAmplitude amp = .medium)
    ∧ (60 ≤ amp → getMouthShapeFromAmplitude amp = .wide) := by
  unfold getMouthShapeFromAmplitude
  refine ⟨?_, ?_, ?_, ?_⟩ <;> intros <;> split_ifs <;> first | rfl | linarith

theorem opennessToViseme_spec (o : ℚ) :
    (o < 0.1 → opennessToViseme o = .sil)
    ∧ (0.1 ≤ o → o < 0.2 → opennessToViseme o = .SS)
    ∧ (0.2 ≤ o → o < 0.35 → opennessToViseme o = .I)
    ∧ (0.35 ≤ o → o < 0.5 → opennessToViseme o = .E)
    ∧ (0.5 ≤ o → o < 0.7 → opennessToViseme o = .O)
    ∧ (0.7 ≤ o → opennessToViseme o = .aa) := by
  unfold opennessToViseme
  refine ⟨?_, ?_, ?_, ?_, ?_, ?_⟩ <;> intros <;> split_ifs <;> first | rfl | linarith

/-! ### C8: amplitude-fallback mode -/

/-- C8: In amplitude-fallback mode, for every amplitude in `[0, 100]`: the
mouth-shape bucket is closed below 15, small below 35, medium below 60 and
wide above; openness is `clamp(amplitude/80, 0, 1)` (equal to
`amplitude/80` up to 80 and to 1 beyond); the phonetic category follows the
fixed openness thresholds (sil < 0.1, SS < 0.2, I < 0.35, E < 0.5, O < 0.7,
else aa); and the jaw rotation is the static table value of that category
with no cross-category interpolation. -/
theorem amplitude_fallback_spec (amp : ℚ) (h0 : 0 ≤ amp) (_h100 : amp ≤ 100) :
    ((amp < 15 → (amplitudeFallback amp).mouthShape = .closed)
      ∧ (15 ≤ amp → amp < 35 → (amplitudeFallback amp).mouthShape = .small)
      ∧ (35 ≤ amp → amp < 60 → (amplitudeFallback amp).mouthShape = .medium)
      ∧ (60 ≤ amp → (amplitudeFallback amp).mouthShape = .wide))
    ∧ (amplitudeFallback amp).openness = min 1 (max 0 (amp / 80))
    ∧ ((amp ≤ 80 → (amplitudeFallback amp).openness = amp / 80)
      ∧ (80 ≤ amp → (amplitudeFallback amp).openness = 1))
    ∧ (((amplitudeFallback amp).openness < 0.1 → (amplitudeFallback amp).viseme = .sil)
      ∧ (0.1 ≤ (amplitudeFallback amp).openness → (amplitudeFallback amp).openness < 0.2 →
          (amplitudeFallback amp).viseme = .SS)
      ∧ (0.2 ≤ (amplitudeFallback amp).openness → (amplitudeFallback amp).openness < 0.35 →
          (amplitudeFallback amp).viseme = .I)
      ∧ (0.35 ≤ (amplitudeFallback amp).openness → (amplitudeFallback amp).openness < 0.5 →
          (amplitudeFallback amp).viseme = .E)
      ∧ (0.5 ≤ (amplitudeFallback amp).openness → (amplitudeFallback amp).openness < 0.7 →
          (amplitudeFallback amp).viseme = .O)
      ∧ (0.7 ≤ (amplitudeFallback amp).openness → (amplitudeFallback amp).viseme = .aa))
    ∧ (amplitudeFallback amp).jawRotation
        = VISEME_JAW_ROTATION ((amplitudeFallback amp).viseme) := by
  have hmax : max 0 (amp / 80) = amp / 80 :=
    max_eq_right (div_nonneg h0 (by norm_num))
  refine ⟨getMouthShapeFromAmplitude_spec amp, rfl, ⟨?_, ?_⟩,
    opennessToViseme_spec ((amplitudeFallback amp).openness), rfl⟩
  · intro h80
    show min 1 (max 0 (amp / 80)) = amp / 80
    rw [hmax]
    exact min_eq_right ((div_le_one (by norm_num)).mpr h80)
  · intro h80
    show min 1 (max 0 (amp / 80)) = 1
    rw [hmax]
    exact min_eq_left ((one_le_div (by norm_num)).mpr h80)

/-- Witness for C8 at the claim's own example, amplitude 50. -/
theorem amplitude_fallback_witness :
    (amplitudeFallback 50).openness = 0.625
    ∧ (amplitudeFallback 50).viseme = .O
    ∧ (amplitudeFallback 50).mouthShape = .medium := by
  have h := amplitude_fallback_spec 50 (by norm_num) (by norm_num)
  have hop : (amplitudeFallback 50).openness = 0.625 := by
    have h58 := h.2.2.1.1 (by norm_num)
    rw [h58]; norm_num
  refine ⟨hop, ?_, ?_⟩
  · exact h.2.2.2.1.2.2.2.2.1 (by rw [hop]; norm_num) (by rw [hop]; norm_num)
  · exact h.1.2.2.1 (by norm_num) (by norm_num)

/-! ### C7: jaw-rotation blend continuity -/

/-- C7: jaw-rotation interpolation holds the current category's static
value for progress below 0.7 (or with no next category), blends with
`current + (next - current) * (1 - (1 - (p - 0.7)/0.3)^2)` at or above 0.7,
equals the unblended value exactly at 0.7, and the samples at `0.7 + e` and
`0.7 - e` differ by at most `|next - current| * (20/3) * e` — continuity at
the blend threshold. -/
theorem jaw_interpolation_spec :
    (∀ (cur : Viseme) (next : Option Viseme) (p : ℚ), (next = none ∨ p < 0.7) →
      getInterpolatedJawRotation cur next p = VISEME_JAW_ROTATION cur)
    ∧ (∀ (cur nv : Viseme) (p : ℚ), 0.7 ≤ p →
      getInterpolatedJawRotation cur (some nv) p
        = VISEME_JAW_ROTATION cur
          + (VISEME_JAW_ROTATION nv - VISEME_JAW_ROTATION cur)
              * (1 - (1 - (p - 0.7) / 0.3) ^ 2))
    ∧ (∀ (cur nv : Viseme), getInterpolatedJawRotation cur (some nv) 0.7
        = VISEME_JAW_ROTATION cur)
    ∧ (∀ (cur nv : Viseme) (e : ℚ), 0 ≤ e → e ≤ 0.3 →
      |getInterpolatedJawRotation cur (some nv) (0.7 + e)
          - getInterpolatedJawRotation cur (some nv) (0.7 - e)|
        ≤ |VISEME_JAW_ROTATION nv - VISEME_JAW_ROTATION cur| * (20 / 3) * e) := by
  have part1 : ∀ (cur : Viseme) (next : Option Viseme) (p : ℚ), (next = none ∨ p < 0.7) →
      getInterpolatedJawRotation cur next p = VISEME_JAW_ROTATION cur := by
    rintro cur next p (rfl | hlt)
    · rfl
    · cases next with
      | none => rfl
      | some nv =>
        unfold getInterpolatedJawRotation
        dsimp only
        rw [if_pos hlt]
  have part2 : ∀ (cur nv : Viseme) (p : ℚ), 0.7 ≤ p →
      getInterpolatedJawRotation cur (some nv) p
        = VISEME_JAW_ROTATION cur
          + (VISEME_JAW_ROTATION nv - VISEME_JAW_ROTATION cur)
              * (1 - (1 - (p - 0.7) / 0.3) ^ 2) := by
    intro cur nv p hp
    unfold getInterpolatedJawRotation
    dsimp only
    rw [if_neg (not_lt.mpr hp)]
    norm_num
  have part3 : ∀ (cur nv : Viseme), getInterpolatedJawRotation cur (some nv) 0.7
      = VISEME_JAW_ROTATION cur := by
    intro cur nv
    rw [part2 cur nv 0.7 le_rfl]
    norm_num
  refine ⟨part1, part2, part3, ?_⟩
  intro cur nv e he0 he3
  rcases he0.eq_or_lt with heq | hpos
  · rw [← heq]
    norm_num
  · have hlow : getInterpolatedJawRotation cur (some nv) (0.7 - e)
        = VISEME_JAW_ROTATION cur := part1 cur (some nv) (0.7 - e) (Or.inr (by linarith))
    have hhigh := part2 cur nv (0.7 + e) (by linarith)
    rw [hlow, hhigh]
    have harg : ((0.7 : ℚ) + e) - 0.7 = e := by ring
    rw [harg]
    have hE : (1 - (1 - e / 0.3) ^ 2) = (20 / 3) * e - (100 / 9) * e ^ 2 := by
      field_simp
      ring
    rw [add_sub_cancel_left, abs_mul, hE]
    have hEbound : |(20 / 3) * e - (100 / 9) * e ^ 2| ≤ (20 / 3) * e := by
      rw [abs_le]
      constructor
      · nlinarith [sq_nonneg e, mul_pos hpos hpos]
      · nlinarith [sq_nonneg e, mul_pos hpos hpos]
    calc |VISEME_JAW_ROTATION nv - VISEME_JAW_ROTATION cur|
          * |(20 / 3) * e - (100 / 9) * e ^ 2|
        ≤ |VISEME_JAW_ROTATION nv - VISEME_JAW_ROTATION cur| * ((20 / 3) * e) :=
          mul_le_mul_of_nonneg_left hEbound (abs_nonneg _)
      _ = |VISEME_JAW_ROTATION nv - VISEME_JAW_ROTATION cur| * (20 / 3) * e := by ring

/-- Witness for C7: blending from `aa` toward `sil` around the threshold
with `e = 0.1`. -/
theorem jaw_interpolation_witness :
    getInterpolatedJawRotation .aa (some .sil) 0.6 = VISEME_JAW_ROTATION .aa
    ∧ getInterpolatedJawRotation .aa (some .sil) 0.7 = VISEME_JAW_ROTATION .aa
    ∧ |getInterpolatedJawRotation .aa (some .sil) (0.7 + 0.1)
        - getInterpolatedJawRotation .aa (some .sil) (0.7 - 0.1)|
        ≤ |VISEME_JAW_ROTATION .sil - VISEME_JAW_ROTATION .aa| * (20 / 3) * 0.1 := by
  refine ⟨jaw_interpolation_spec.1 .aa (some .sil) 0.6 (Or.inr (by norm_num)),
    jaw_interpolation_spec.2.2.1 .aa .sil, ?_⟩
  exact jaw_interpolation_spec.2.2.2 .aa .sil 0.1 (by norm_num) (by norm_num)

/-! ### C5: gesture queueing and priority preemption -/

/-- C5: requesting a gesture with none active activates it immediately with
progress 0 and a fresh start time; with one active, the request preempts
(progress 0, fresh start time, previous progress discarded) exactly when
its static priority is strictly greater than the active gesture's, and is
otherwise appended to the FIFO queue. -/
theorem queue_gesture_spec (s : AnimMachineState) (now : ℚ) (ty : GestureType)
    (intensity : ℚ) :
    (s.activeGesture = none →
      queueGesture now ty intensity s =
        { s with
          activeGesture := some ⟨ty, (GESTURE_LIBRARY ty).duration, intensity⟩
          gestureStartTime := some now
          gestureProgress := 0 })
    ∧ (∀ active, s.activeGesture = some active →
        ((GESTURE_LIBRARY ty).priority > (GESTURE_LIBRARY active.type).priority →
          queueGesture now ty intensity s =
            { s with
              activeGesture := some ⟨ty, (GESTURE_LIBRARY ty).duration, intensity⟩
              gestureStartTime := some now
              gestureProgress := 0 })
        ∧ (¬ (GESTURE_LIBRARY ty).priority > (GESTURE_LIBRARY active.type).priority →
          queueGesture now ty intensity s =
            { s with
              gestureQueue :=
                s.gestureQueue ++ [⟨ty, (GESTURE_LIBRARY ty).duration, intensity⟩] })) := by
  constructor
  · intro hnone
    unfold queueGesture
    rw [hnone]
  · intro active hsome
    constructor
    · intro hgt
      unfold queueGesture
      rw [hsome]
      simp only [if_pos hgt]
    · intro hle
      unfold queueGesture
      rw [hsome]
      simp only [if_neg hle]

/-- Witness for C5: a priority-3 request (`armFlailBoth`) preempts an
active priority-1 gesture (`headNod`), while a priority-1 request
(`headNod`) queued during an active priority-3 gesture is appended to the
queue. -/
theorem queue_gesture_witness :
    queueGesture 7 .armFlailBoth 1 lowPriorityActive =
      { lowPriorityActive with
        activeGesture := some ⟨.armFlailBoth, (GESTURE_LIBRARY .armFlailBoth).duration, 1⟩
        gestureStartTime := some 7
        gestureProgress := 0 }
    ∧ queueGesture 7 .headNod 1 highPriorityActive =
      { highPriorityActive with
        gestureQueue :=
          highPriorityActive.gestureQueue
            ++ [⟨.headNod, (GESTURE_LIBRARY .headNod).duration, 1⟩] } := by
  constructor
  · exact ((queue_gesture_spec lowPriorityActive 7 .armFlailBoth 1).2
      ⟨.headNod, 0.25, 1⟩ rfl).1 (by decide)
  · exact ((queue_gesture_spec highPriorityActive 7 .headNod 1).2
      ⟨.armFlailBoth, 0.5, 1⟩ rfl).2 (by decide)

/-! ### C2: stopping playback and engine reset -/

/-- C2 counterexample: stopping a mid-utterance engine does not clear the
active gesture or the pending gesture queue, so not all engine state is
reset to the fresh-instance values. -/
theorem stop_leaves_gesture_state :
    (stopEngine busyEngine).anim.gestureQueue = [⟨.headNod, 0.25, 1⟩]
    ∧ (stopEngine busyEngine).anim.gestureQueue ≠ initialAnimState.gestureQueue
    ∧ (stopEngine busyEngine).anim.activeGesture = some ⟨.shrug, 0.4, 1⟩
    ∧ (stopEngine busyEngine).anim.activeGesture ≠ initialAnimState.activeGesture := by
  with_unfolding_all decide

/-- C2 (amended): stopping playback resets the whole lip-sync state to the
fresh-instance values (only the never-read `startTime` ref survives, and
`playAudio` overwrites it), sets the coarse state to idle and clears the
trigger-dedup set; consequently a stop-then-restart yields exactly the
fresh-instance lip-sync state, so the first produced sample equals a fresh
engine's.  The active gesture and the pending gesture queue, however, are
left untouched by stopping. -/
theorem stop_engine_spec (e : EngineState) :
    (stopEngine e).lipSync = { initialLipSyncState with startTime := e.lipSync.startTime }
    ∧ (stopEngine e).anim.animationState = .idle
    ∧ (stopEngine e).anim.processedTriggers = []
    ∧ (stopEngine e).anim.activeGesture = e.anim.activeGesture
    ∧ (stopEngine e).anim.gestureQueue = e.anim.gestureQueue
    ∧ (stopEngine e).anim.gestureStartTime = e.anim.gestureStartTime
    ∧ ∀ (cues : Option (List VisemeCue)) (triggers : List GestureTrigger) (now : ℚ),
        playAudio cues triggers now (stopEngine e).lipSync
          = playAudio cues triggers now initialLipSyncState := by
  refine ⟨rfl, rfl, rfl, rfl, rfl, rfl, fun cues triggers now => rfl⟩

/-! ### C6: trigger dedup -/

theorem processStep_mem (t τ : ℚ) :
    ∀ (triggers : List GestureTrigger) (P : List ℚ),
      τ ∈ P → τ ∈ (processTriggersStep t triggers P).1 := by
  intro triggers
  induction triggers with
  | nil => intro P h; simpa [processTriggersStep] using h
  | cons tr rest ih =>
    intro P h
    simp only [processTriggersStep]
    split_ifs with h1 h2
    · exact ih P h
    · exact ih (tr.time :: P) (List.mem_cons_of_mem _ h)
    · exact ih P h

theorem processStep_fired_spec (t : ℚ) :
    ∀ (triggers : List GestureTrigger) (P : List ℚ) (tr : GestureTrigger),
      tr ∈ (processTriggersStep t triggers P).2 →
      tr ∈ triggers ∧ tr.time ∉ P ∧ tr.time - 0.05 ≤ t ∧ t ≤ tr.time + 0.2
        ∧ tr.time ∈ (processTriggersStep t triggers P).1 := by
  intro triggers
  induction triggers with
  | nil => intro P tr h; simp [processTriggersStep] at h
  | cons tr0 rest ih =>
    intro P tr h
    simp only [processTriggersStep] at h ⊢
    split_ifs at h ⊢ with h1 h2
    · obtain ⟨hm, hnp, hw1, hw2, hp⟩ := ih P tr h
      exact ⟨List.mem_cons_of_mem _ hm, hnp, hw1, hw2, hp⟩
    · simp only [List.mem_cons] at h
      rcases h with rfl | h
      · exact ⟨List.mem_cons_self _ _, h1, h2.1, h2.2,
          processStep_mem t tr.time rest (tr.time :: P) (List.mem_cons_self _ _)⟩
      · obtain ⟨hm, hnp, hw1, hw2, hp⟩ := ih (tr0.time :: P) tr h
        exact ⟨List.mem_cons_of_mem _ hm,
          fun hmem => hnp (List.mem_cons_of_mem _ hmem), hw1, hw2, hp⟩
    · obtain ⟨hm, hnp, hw1, hw2, hp⟩ := ih P tr h
      exact ⟨List.mem_cons_of_mem _ hm, hnp, hw1, hw2, hp⟩

theorem processStep_processed_sub (t τ : ℚ) :
    ∀ (triggers : List GestureTrigger) (P : List ℚ),
      τ ∈ (processTriggersStep t triggers P).1 →
      τ ∈ P ∨ τ ∈ (processTriggersStep t triggers P).2.map (fun tr => tr.time) := by
  intro triggers
  induction triggers with
  | nil => intro P h; exact Or.inl h
  | cons tr0 rest ih =>
    intro P h
    simp only [processTriggersStep] at h ⊢
    split_ifs at h ⊢ with h1 h2
    · exact ih P h
    · rcases ih (tr0.time :: P) h with hmem | hmem
      · rcases List.mem_cons.mp hmem with rfl | hmem
        · right; simp
        · exact Or.inl hmem
      · right
        simpa using Or.inr hmem
    · exact ih P h

theorem processStep_count_le_one (t τ : ℚ) :
    ∀ (triggers : List GestureTrigger) (P : List ℚ),
      (processTriggersStep t triggers P).2.countP (fun tr => decide (tr.time = τ)) ≤ 1 := by
  intro triggers
  induction triggers with
  | nil => intro P; simp [processTriggersStep]
  | cons tr0 rest ih =>
    intro P
    simp only [processTriggersStep]
    split_ifs with h1 h2
    · exact ih P
    · by_cases heq : tr0.time = τ
      · subst heq
        have hzero :
            (processTriggersStep t rest (tr0.time :: P)).2.countP
              (fun tr => decide (tr.time = tr0.time)) = 0 := by
          rw [List.countP_eq_zero]
          intro tr htr
          have := (processStep_fired_spec t rest (tr0.time :: P) tr htr).2.1
          simp only [decide_eq_true_eq]
          intro hcontra
          exact this (by rw [hcontra]; exact List.mem_cons_self _ _)
        rw [List.countP_cons, hzero]
        simp
      · rw [List.countP_cons]
        simp only [decide_eq_true_eq, heq, if_false, add_zero]
        exact ih (tr0.time :: P)
    · exact ih P

theorem processStep_count_zero (t τ : ℚ)
    (triggers : List GestureTrigger) (P : List ℚ) (h : τ ∈ P) :
    (processTriggersStep t triggers P).2.countP (fun tr => decide (tr.time = τ)) = 0 := by
  rw [List.countP_eq_zero]
  intro tr htr
  have := (processStep_fired_spec t triggers P tr htr).2.1
  simp only [decide_eq_true_eq]
  intro hcontra
  exact this (hcontra ▸ h)

theorem processStep_fires (t : ℚ) :
    ∀ (triggers : List GestureTrigger) (P : List ℚ) (tr : GestureTrigger),
      tr ∈ triggers → tr.time ∉ P → tr.time - 0.05 ≤ t → t ≤ tr.time + 0.2 →
      ∃ tr' ∈ (processTriggersStep t triggers P).2, tr'.time = tr.time := by
  intro triggers
  induction triggers with
  | nil => intro P tr h; simp at h
  | cons tr0 rest ih =>
    intro P tr hmem hnp hw1 hw2
    simp only [processTriggersStep]
    rcases List.mem_cons.mp hmem with rfl | hmem
    · rw [if_neg hnp, if_pos ⟨by linarith, by linarith⟩]
      exact ⟨tr, List.mem_cons_self _ _, rfl⟩
    · split_ifs with h1 h2
      · exact ih P tr hmem hnp hw1 hw2
      · by_cases heq : tr.time = tr0.time
        · exact ⟨tr0, List.mem_cons_self _ _, heq.symm⟩
        · obtain ⟨tr', htr', heqtime⟩ :=
            ih (tr0.time :: P) tr hmem
              (by simp [heq, hnp]) hw1 hw2
          exact ⟨tr', List.mem_cons_of_mem _ htr', heqtime⟩
      · exact ih P tr hmem hnp hw1 hw2

theorem triggerRun_mem (triggers : List GestureTrigger) (τ : ℚ) :
    ∀ (times : List ℚ) (P : List ℚ),
      τ ∈ P → τ ∈ (triggerRun triggers P times).1 := by
  intro times
  induction times with
  | nil => intro P h; simpa [triggerRun] using h
  | cons t ts ih =>
    intro P h
    simp only [triggerRun]
    exact ih _ (processStep_mem t τ triggers P h)

theorem triggerRun_count_zero (triggers : List GestureTrigger) (τ : ℚ) :
    ∀ (times : List ℚ) (P : List ℚ),
      τ ∈ P →
      (triggerRun triggers P times).2.countP (fun tr => decide (tr.time = τ)) = 0 := by
  intro times
  induction times with
  | nil => intro P _; simp [triggerRun]
  | cons t ts ih =>
    intro P h
    simp only [triggerRun, List.countP_append]
    rw [processStep_count_zero t τ triggers P h,
      ih (processTriggersStep t triggers P).1 (processStep_mem t τ triggers P h)]

theorem triggerRun_count_le_one (triggers : List GestureTrigger) (τ : ℚ) :
    ∀ (times : List ℚ) (P : List ℚ),
      (triggerRun triggers P times).2.countP (fun tr => decide (tr.time = τ)) ≤ 1 := by
  intro times
  induction times with
  | nil => intro P; simp [triggerRun]
  | cons t ts ih =>
    intro P
    simp only [triggerRun, List.countP_append]
    by_cases hP : τ ∈ P
    · rw [processStep_count_zero t τ triggers P hP,
        triggerRun_count_zero triggers τ ts _ (processStep_mem t τ triggers P hP)]
      norm_num
    · rcases Nat.le_one_iff_eq_zero_or_eq_one.mp (processStep_count_le_one t τ triggers P)
        with hc | hc
      · rw [hc]
        have hnot : τ ∉ (processTriggersStep t triggers P).1 := by
          intro hmem
          rcases processStep_processed_sub t τ triggers P hmem with h | h
          · exact hP h
          · obtain ⟨tr, htr, heq⟩ := List.mem_map.mp h
            have : (processTriggersStep t triggers P).2.countP
                (fun tr => decide (tr.time = τ)) ≠ 0 := by
              rw [Ne, List.countP_eq_zero]
              push_neg
              exact ⟨tr, htr, by simp [heq]⟩
            exact this hc
        simpa using ih (processTriggersStep t triggers P).1
      · rw [hc]
        have hτmem : τ ∈ (processTriggersStep t triggers P).1 := by
          have : (processTriggersStep t triggers P).2.countP
              (fun tr => decide (tr.time = τ)) ≠ 0 := by rw [hc]; exact one_ne_zero
          rw [Ne, List.countP_eq_zero] at this
          push_neg at this
          obtain ⟨tr, htr, hdec⟩ := this
          have heq : tr.time = τ := by simpa using hdec
          exact heq ▸ (processStep_fired_spec t triggers P tr htr).2.2.2.2
        rw [triggerRun_count_zero triggers τ ts _ hτmem]

/-- C6: over an utterance (any sequence of playback times processed while
playing, starting from an empty dedup set), each trigger time τ fires at
most once in total; an unconsumed trigger fires in any step whose playback
time lies in `[time - 0.05, time + 0.2]`; and a fired trigger was
unconsumed, in-window, and is marked consumed by that step — so it can
never fire again, even if playback time re-enters the window. -/
theorem trigger_fires_at_most_once (triggers : List GestureTrigger)
    (times : List ℚ) (τ : ℚ) :
    (triggerRun triggers [] times).2.countP (fun tr => decide (tr.time = τ)) ≤ 1
    ∧ (∀ (t : ℚ) (P : List ℚ) (tr : GestureTrigger),
        tr ∈ triggers → tr.time ∉ P → tr.time - 0.05 ≤ t → t ≤ tr.time + 0.2 →
        ∃ tr' ∈ (processTriggersStep t triggers P).2, tr'.time = tr.time)
    ∧ (∀ (t : ℚ) (P : List ℚ) (tr : GestureTrigger),
        tr ∈ (processTriggersStep t triggers P).2 →
        tr.time ∉ P ∧ tr.time - 0.05 ≤ t ∧ t ≤ tr.time + 0.2
          ∧ tr.time ∈ (processTriggersStep t triggers P).1) :=
  ⟨triggerRun_count_le_one triggers τ times [],
    fun t P tr hmem hnp hw1 hw2 => processStep_fires t triggers P tr hmem hnp hw1 hw2,
    fun t P tr h =>
      ⟨(processStep_fired_spec t triggers P tr h).2.1,
        (processStep_fired_spec t triggers P tr h).2.2.1,
        (processStep_fired_spec t triggers P tr h).2.2.2.1,
        (processStep_fired_spec t triggers P tr h).2.2.2.2⟩⟩

/-- Witness for C6: the spec's example trigger at `time = 2.0`, with a
playback sequence that enters the window `[1.95, 2.2]` twice (a seek):
exactly one firing in the first in-window step, none later. -/
theorem trigger_fires_witness :
    (triggerRun [⟨2, .exclaim⟩] [] [1, 1.96, 2.1, 5, 1.96]).2.countP
      (fun tr => decide (tr.time = 2)) ≤ 1
    ∧ (∃ tr' ∈ (processTriggersStep 1.96 [⟨2, .exclaim⟩] []).2, tr'.time = (2 : ℚ)) := by
  refine ⟨(trigger_fires_at_most_once [⟨2, .exclaim⟩] [1, 1.96, 2.1, 5, 1.96] 2).1, ?_⟩
  exact (trigger_fires_at_most_once [⟨2, .exclaim⟩] [] 2).2.1 1.96 [] ⟨2, .exclaim⟩
    (List.mem_cons_self _ _) (by simp) (by norm_num) (by norm_num)

/-! ### C10: noise range -/

theorem noiseHash_bounds (seed n : ℝ) : 0 ≤ noiseHash seed n ∧ noiseHash seed n < 1 :=
  ⟨Int.fract_nonneg _, Int.fract_lt_one _⟩

theorem noise_bounds (x seed : ℝ) : 0 ≤ noise x seed ∧ noise x seed < 1 := by
  have hxf0 : (0 : ℝ) ≤ x - (⌊x⌋ : ℤ) := sub_nonneg.mpr (Int.floor_le x)
  have hxf1 : x - ((⌊x⌋ : ℤ) : ℝ) < 1 := by
    have := Int.lt_floor_add_one x
    linarith
  have ha0 := (noiseHash_bounds seed (⌊x⌋ : ℤ)).1
  have ha1 := (noiseHash_bounds seed (⌊x⌋ : ℤ)).2
  have hb0 := (noiseHash_bounds seed ((⌊x⌋ : ℤ) + 1)).1
  have hb1 := (noiseHash_bounds seed ((⌊x⌋ : ℤ) + 1)).2
  have ht0 : 0 ≤ (x - (⌊x⌋ : ℤ)) * (x - (⌊x⌋ : ℤ)) * (3 - 2 * (x - (⌊x⌋ : ℤ))) :=
    mul_nonneg (mul_nonneg hxf0 hxf0) (by linarith)
  have ht1 : (x - (⌊x⌋ : ℤ)) * (x - (⌊x⌋ : ℤ)) * (3 - 2 * (x - (⌊x⌋ : ℤ))) < 1 := by
    have hkey : 1 - (x - (⌊x⌋ : ℤ)) * (x - (⌊x⌋ : ℤ)) * (3 - 2 * (x - (⌊x⌋ : ℤ)))
        = (1 - (x - (⌊x⌋ : ℤ))) ^ 2 * (1 + 2 * (x - (⌊x⌋ : ℤ))) := by ring
    have hpos : 0 < (1 - (x - (⌊x⌋ : ℤ))) ^ 2 * (1 + 2 * (x - (⌊x⌋ : ℤ))) :=
      mul_pos (pow_pos (by linarith) 2) (by linarith)
    linarith
  unfold noise
  dsimp only
  constructor
  · exact add_nonneg (mul_nonneg ha0 (by linarith)) (mul_nonneg hb0 ht0)
  · have h1 : noiseHash seed (⌊x⌋ : ℤ)
        * (1 - (x - (⌊x⌋ : ℤ)) * (x - (⌊x⌋ : ℤ)) * (3 - 2 * (x - (⌊x⌋ : ℤ))))
        < 1 * (1 - (x - (⌊x⌋ : ℤ)) * (x - (⌊x⌋ : ℤ)) * (3 - 2 * (x - (⌊x⌋ : ℤ)))) :=
      mul_lt_mul_of_pos_right ha1 (by linarith)
    have h2 : noiseHash seed ((⌊x⌋ : ℤ) + 1)
        * ((x - (⌊x⌋ : ℤ)) * (x - (⌊x⌋ : ℤ)) * (3 - 2 * (x - (⌊x⌋ : ℤ))))
        ≤ 1 * ((x - (⌊x⌋ : ℤ)) * (x - (⌊x⌋ : ℤ)) * (3 - 2 * (x - (⌊x⌋ : ℤ)))) :=
      mul_le_mul_of_nonneg_right hb1.le ht0
    linarith

theorem fbmIter_amplitude_pos (x seed p : ℝ) (hp : 0 < p) :
    ∀ n, 0 < (fbmIter x seed p n).amplitude := by
  intro n
  induction n with
  | zero => exact one_pos
  | succ n ih => exact mul_pos ih hp

theorem fbmIter_bounds (x seed p : ℝ) (hp : 0 < p) :
    ∀ n, 0 ≤ (fbmIter x seed p n).total
      ∧ (fbmIter x seed p n).total ≤ (fbmIter x seed p n).maxValue
      ∧ (1 ≤ n → (fbmIter x seed p n).total < (fbmIter x seed p n).maxValue) := by
  intro n
  induction n with
  | zero => exact ⟨le_rfl, le_rfl, by omega⟩
  | succ n ih =>
    obtain ⟨h0, hle, _⟩ := ih
    have hamp := fbmIter_amplitude_pos x seed p hp n
    have hn0 := (noise_bounds (x * (fbmIter x seed p n).frequency)
      (seed + (n : ℝ) * 100)).1
    have hn1 := (noise_bounds (x * (fbmIter x seed p n).frequency)
      (seed + (n : ℝ) * 100)).2
    have hterm0 : 0 ≤ noise (x * (fbmIter x seed p n).frequency)
        (seed + (n : ℝ) * 100) * (fbmIter x seed p n).amplitude :=
      mul_nonneg hn0 hamp.le
    have hterm1 : noise (x * (fbmIter x seed p n).frequency)
        (seed + (n : ℝ) * 100) * (fbmIter x seed p n).amplitude
        < (fbmIter x seed p n).amplitude := by
      nlinarith
    refine ⟨?_, ?_, fun _ => ?_⟩
    · show 0 ≤ (fbmIter x seed p n).total + _
      linarith
    · show (fbmIter x seed p n).total + _ ≤ (fbmIter x seed p n).maxValue + _
      linarith
    · show (fbmIter x seed p n).total + _ < (fbmIter x seed p n).maxValue + _
      linarith

/-- C10: `noise` always lands in `[0, 1)` — it is a smoothstep-weighted
convex combination of two fractional-part hash values — and `fbmNoise`
(a positively weighted average of `noise` values normalised by the weight
sum) also lands in `[0, 1)`; neither is ever negative, contradicting the
in-code "-1 and 1" comment but confirming the claim. -/
theorem noise_range_spec :
    (∀ (seed n : ℝ), 0 ≤ noiseHash seed n ∧ noiseHash seed n < 1)
    ∧ (∀ (x seed : ℝ), 0 ≤ noise x seed ∧ noise x seed < 1)
    ∧ (∀ (x seed persistence : ℝ) (octaves : ℕ), 1 ≤ octaves → 0 < persistence →
        0 ≤ fbmNoise x octaves persistence seed
          ∧ fbmNoise x octaves persistence seed < 1) := by
  refine ⟨noiseHash_bounds, noise_bounds, ?_⟩
  intro x seed p octaves hoct hp
  obtain ⟨h0, _, hstrict⟩ := fbmIter_bounds x seed p hp octaves
  have hlt := hstrict hoct
  have hmax : 0 < (fbmIter x seed p octaves).maxValue := lt_of_le_of_lt h0 hlt
  constructor
  · exact div_nonneg h0 hmax.le
  · exact (div_lt_one hmax).mpr hlt

/-- Witness for C10 at the source's default parameters (3 octaves,
persistence 0.5). -/
theorem noise_range_witness :
    (0 : ℝ) < 0.5 ∧ (1 : ℕ) ≤ 3
    ∧ 0 ≤ fbmNoise 2 3 0.5 0 ∧ fbmNoise 2 3 0.5 0 < 1 := by
  have h := noise_range_spec.2.2 2 0 0.5 3 (by norm_num) (by norm_num)
  exact ⟨by norm_num, by norm_num, h.1, h.2⟩

/-! ### C4: sampling the timeline -/

theorem chain_head_end_le (c0 : VisemeCue) (rest : List VisemeCue)
    (hchain : (c0 :: rest).Chain' fun c d => c.endTime ≤ d.startTime)
    (hwf : ∀ c ∈ c0 :: rest, c.startTime ≤ c.endTime) :
    ∀ c ∈ rest, c0.endTime ≤ c.startTime := by
  induction rest generalizing c0 with
  | nil => intro c hc; simp at hc
  | cons c1 rest' ih =>
    intro c hc
    rw [List.chain'_cons] at hchain
    rcases List.mem_cons.mp hc with rfl | hc
    · exact hchain.1
    · have h1 : c1.endTime ≤ c.startTime :=
        ih c1 hchain.2 (fun d hd => hwf d (List.mem_cons_of_mem _ hd)) c hc
      have h2 : c1.startTime ≤ c1.endTime := hwf c1 (by simp)
      linarith [hchain.1]

theorem ends_le_getLast (cues : List VisemeCue) (hne : cues ≠ [])
    (hchain : cues.Chain' fun c d => c.endTime ≤ d.startTime)
    (hwf : ∀ c ∈ cues, c.startTime ≤ c.endTime) :
    ∀ c ∈ cues, c.endTime ≤ (cues.getLast hne).endTime := by
  induction cues with
  | nil => intro c hc; simp at hc
  | cons c0 rest ih =>
    intro c hc
    cases rest with
    | nil =>
      rcases List.mem_cons.mp hc with rfl | hc
      · simp [List.getLast]
      · simp at hc
    | cons c1 rest' =>
      have hlast : (c0 :: c1 :: rest').getLast (List.cons_ne_nil _ _)
          = (c1 :: rest').getLast (List.cons_ne_nil _ _) := by
        simp [List.getLast]
      rw [hlast]
      have hchain' := (List.chain'_cons.mp hchain).2
      have hwf' : ∀ d ∈ c1 :: rest', d.startTime ≤ d.endTime :=
        fun d hd => hwf d (List.mem_cons_of_mem _ hd)
      rcases List.mem_cons.mp hc with rfl | hc
      · have hglmem := List.getLast_mem (l := c1 :: rest') (List.cons_ne_nil _ _)
        have h1 : c.endTime ≤ ((c1 :: rest').getLast (List.cons_ne_nil _ _)).startTime := by
          rcases List.mem_cons.mp hglmem with heq | hmem
          · rw [heq]; exact (List.chain'_cons.mp hchain).1
          · have := chain_head_end_le c (c1 :: rest') hchain hwf
            exact this _ hglmem
        have h2 := hwf' _ hglmem
        linarith
      · exact ih (List.cons_ne_nil _ _) hchain' hwf' c hc

theorem findSample_eq_none (t : ℚ) :
    ∀ (l : List VisemeCue),
      (∀ c ∈ l, ¬(c.startTime ≤ t ∧ t < c.endTime)) → findSample t l = none := by
  intro l
  induction l with
  | nil => intro _; rfl
  | cons c0 rest ih =>
    intro h
    simp only [findSample]
    rw [if_neg (h c0 (by simp))]
    exact ih fun c hc => h c (List.mem_cons_of_mem _ hc)

theorem findSample_found (t : ℚ) :
    ∀ (l : List VisemeCue) (c : VisemeCue),
      l.Chain' (fun c d => c.endTime ≤ d.startTime) →
      (∀ d ∈ l, d.startTime ≤ d.endTime) →
      c ∈ l → c.startTime ≤ t → t < c.endTime →
      ∃ s, findSample t l = some s ∧ s.viseme = c.viseme
        ∧ s.progress = (t - c.startTime) / (c.endTime - c.startTime) := by
  intro l
  induction l with
  | nil => intro c _ _ hc; simp at hc
  | cons c0 rest ih =>
    intro c hchain hwf hc hst hend
    rcases List.mem_cons.mp hc with rfl | hc
    · have hdur : c.endTime - c.startTime > 0 := by linarith
      refine ⟨⟨c.viseme, (t - c.startTime) / (c.endTime - c.startTime),
        (rest.head?).map (fun n => n.viseme)⟩, ?_, rfl, rfl⟩
      simp only [findSample]
      rw [if_pos ⟨hst, hend⟩, if_pos hdur]
    · have hnot : ¬(c0.startTime ≤ t ∧ t < c0.endTime) := by
        have h1 : c0.endTime ≤ c.startTime := chain_head_end_le c0 rest hchain hwf c hc
        rintro ⟨-, h3⟩
        linarith
      have hstep : findSample t (c0 :: rest) = findSample t rest := by
        simp only [findSample]
        rw [if_neg hnot]
      rw [hstep]
      exact ih c (List.chain'_cons'.mp hchain).2
        (fun d hd => hwf d (List.mem_cons_of_mem _ hd)) hc hst hend

/-- C4: for a well-formed (ordered, non-overlapping) non-empty event
sequence, sampling at a time at or beyond the last event's end returns
`{sil, 1, none}`; sampling before the first event's start returns
`{sil, 1, first event's category}`; and sampling inside an event returns
that event's category with progress `(t - start) / (end - start)`, which
lies in `[0, 1]`. -/
theorem get_viseme_at_time_spec (cues : List VisemeCue) (t : ℚ)
    (hne : cues ≠ [])
    (hchain : cues.Chain' fun c d => c.endTime ≤ d.startTime)
    (hwf : ∀ c ∈ cues, c.startTime ≤ c.endTime) :
    ((cues.getLast hne).endTime ≤ t →
      getVisemeAtTime cues t = ⟨.sil, 1, none⟩)
    ∧ (t < (cues.head hne).startTime →
      getVisemeAtTime cues t = ⟨.sil, 1, some (cues.head hne).viseme⟩)
    ∧ (∀ c ∈ cues, c.startTime ≤ t → t < c.endTime →
      (getVisemeAtTime cues t).viseme = c.viseme
      ∧ (getVisemeAtTime cues t).progress = (t - c.startTime) / (c.endTime - c.startTime)
      ∧ 0 ≤ (getVisemeAtTime cues t).progress
      ∧ (getVisemeAtTime cues t).progress ≤ 1) := by
  cases cues with
  | nil => exact absurd rfl hne
  | cons c0 rest =>
    refine ⟨?_, ?_, ?_⟩
    · intro hlast
      have hnone : findSample t (c0 :: rest) = none := by
        apply findSample_eq_none
        intro c hc
        rintro ⟨-, hlt⟩
        have := ends_le_getLast (c0 :: rest) hne hchain hwf c hc
        linarith
      simp only [getVisemeAtTime]
      rw [hnone]
      rw [if_pos (by exact hlast)]
    · intro hfirst
      have hstarts : ∀ c ∈ c0 :: rest, t < c.startTime := by
        intro c hc
        rcases List.mem_cons.mp hc with rfl | hc
        · exact hfirst
        · have h1 := chain_head_end_le c0 rest hchain hwf c hc
          have h2 := hwf c0 (by simp)
          have : (c0 :: rest).head hne = c0 := rfl
          rw [this] at hfirst
          linarith
      have hnone : findSample t (c0 :: rest) = none := by
        apply findSample_eq_none
        intro c hc
        rintro ⟨hle, -⟩
        exact absurd hle (not_le.mpr (hstarts c hc))
      have hlastmem := List.getLast_mem (l := c0 :: rest) hne
      have hnotpast : ¬ t ≥ ((c0 :: rest).getLast (List.cons_ne_nil c0 rest)).endTime := by
        have h1 := hstarts _ hlastmem
        have h2 := hwf _ hlastmem
        push_neg
        calc t < ((c0 :: rest).getLast _).startTime := h1
          _ ≤ _ := h2
      simp only [getVisemeAtTime]
      rw [hnone]
      rw [if_neg hnotpast]
      rfl
    · intro c hc hst hend
      obtain ⟨s, hs, hsv, hsp⟩ := findSample_found t (c0 :: rest) c hchain hwf hc hst hend
      have hres : getVisemeAtTime (c0 :: rest) t = s := by
        simp only [getVisemeAtTime]
        rw [hs]
      rw [hres, hsv, hsp]
      have hdur : 0 < c.endTime - c.startTime := by linarith
      refine ⟨rfl, rfl, ?_, ?_⟩
      · exact div_nonneg (by linarith) hdur.le
      · rw [div_le_one hdur]
        linarith

/-- Witness for C4 on a two-cue timeline: sampling mid-event at `t = 0.3`
returns the event's category `aa` with progress `1/2`; sampling past the
end returns silence with no next category; sampling before the start
returns silence pointing at the first category. -/
theorem get_viseme_at_time_witness :
    (getVisemeAtTime sampleCues 0.3).viseme = .aa
    ∧ (getVisemeAtTime sampleCues 0.3).progress = 0.5
    ∧ getVisemeAtTime sampleCues 0.7 = ⟨.sil, 1, none⟩
    ∧ getVisemeAtTime sampleCues (-1) = ⟨.sil, 1, some .sil⟩ := by
  have hne : sampleCues ≠ [] := by simp [sampleCues]
  have hchain : sampleCues.Chain' (fun c d => c.endTime ≤ d.startTime) := by
    simp only [sampleCues, List.chain'_cons, List.chain'_singleton, and_true]
    norm_num
  have hwf : ∀ c ∈ sampleCues, c.startTime ≤ c.endTime := by
    intro c hc
    simp only [sampleCues, List.mem_cons, List.not_mem_nil, or_false] at hc
    rcases hc with rfl | rfl <;> norm_num
  have hlast : sampleCues.getLast hne = ⟨.aa, 0.1, 0.5⟩ := rfl
  have hhead : sampleCues.head hne = ⟨.sil, 0, 0.1⟩ := rfl
  have h3 := (get_viseme_at_time_spec sampleCues 0.3 hne hchain hwf).2.2
    ⟨.aa, 0.1, 0.5⟩ (by simp [sampleCues]) (by norm_num) (by norm_num)
  have h1 := (get_viseme_at_time_spec sampleCues 0.7 hne hchain hwf).1
    (by rw [hlast]; norm_num)
  have h2 := (get_viseme_at_time_spec sampleCues (-1) hne hchain hwf).2.1
    (by rw [hhead]; norm_num)
  refine ⟨h3.1, ?_, h1, h2⟩
  rw [h3.2.1]
  norm_num

/-! ### C9: gesture rotation sampling -/

theorem mem_foldl_union (l : List String) :
    ∀ (acc : List String) (b : String),
      b ∈ l.foldl (fun acc a => if a ∈ acc then acc else acc ++ [a]) acc
        ↔ b ∈ acc ∨ b ∈ l := by
  induction l with
  | nil => intro acc b; simp
  | cons a rest ih =>
    intro acc b
    simp only [List.foldl_cons]
    rw [ih]
    by_cases ha : a ∈ acc
    · rw [if_pos ha]
      simp only [List.mem_cons]
      constructor
      · rintro (h | h)
        · exact Or.inl h
        · exact Or.inr (Or.inr h)
      · rintro (h | h | h)
        · exact Or.inl h
        · exact Or.inl (h ▸ ha)
        · exact Or.inr h
    · rw [if_neg ha]
      simp only [List.mem_append, List.mem_cons, List.mem_singleton]
      tauto

theorem mem_boneNameUnion (l : List String) (b : String) :
    b ∈ boneNameUnion l ↔ b ∈ l := by
  unfold boneNameUnion
  rw [mem_foldl_union]
  simp

theorem lookup_map_key (names : List String) (g : String → Rot) (b : String) :
    lookupBone (names.map (fun n => (n, g n))) b
      = if b ∈ names then some (g b) else none := by
  induction names with
  | nil => rfl
  | cons n rest ih =>
    simp only [List.map_cons]
    unfold lookupBone at ih ⊢
    by_cases h : n = b
    · subst h
      rw [List.find?_cons_of_pos _ (by simp)]
      simp
    · rw [List.find?_cons_of_neg _ (by simp [h])]
      rw [ih]
      by_cases hb : b ∈ rest
      · rw [if_pos hb, if_pos (List.mem_cons_of_mem _ hb)]
      · rw [if_neg hb, if_neg (show b ∉ n :: rest by
          simp only [List.mem_cons, not_or]
          exact ⟨fun hc => h hc.symm, hb⟩)]

theorem find?_bone_none (rotations : List BoneRotation) (b : String) :
    rotations.find? (fun r => r.bone = b) = none
      ↔ b ∉ rotations.map (fun r => r.bone) := by
  rw [List.find?_eq_none]
  simp

theorem interpolate_lookup (kf1 kf2 : GestureKeyframe) (p : ℚ) (b : String) :
    lookupBone (interpolateKeyframes kf1 kf2 p) b
      = match kf1.rotations.find? (fun r => r.bone = b),
              kf2.rotations.find? (fun r => r.bone = b) with
        | some rot1, some rot2 => some ⟨lerpAxis rot1.x rot2.x (easeInOut p),
            lerpAxis rot1.y rot2.y (easeInOut p), lerpAxis rot1.z rot2.z (easeInOut p)⟩
        | some rot1, none => some ⟨rot1.x, rot1.y, rot1.z⟩
        | none, some rot2 => some ⟨rot2.x, rot2.y, rot2.z⟩
        | none, none => none := by
  unfold interpolateKeyframes
  dsimp only
  rw [lookup_map_key]
  simp only [mem_boneNameUnion]
  cases h1 : kf1.rotations.find? (fun r => r.bone = b) with
  | some rot1 =>
    have hmem : b ∈ kf1.rotations.map (fun r => r.bone) := by
      have hm := List.mem_of_find?_eq_some h1
      have hpred := List.find?_some h1
      simp only [decide_eq_true_eq] at hpred
      exact List.mem_map.mpr ⟨rot1, hm, hpred⟩
    rw [if_pos (List.mem_append.mpr (Or.inl hmem))]
    unfold interpBone
    rw [h1]
    cases h2 : kf2.rotations.find? (fun r => r.bone = b) <;> rfl
  | none =>
    cases h2 : kf2.rotations.find? (fun r => r.bone = b) with
    | some rot2 =>
      have hmem : b ∈ kf2.rotations.map (fun r => r.bone) := by
        have hm := List.mem_of_find?_eq_some h2
        have hpred := List.find?_some h2
        simp only [decide_eq_true_eq] at hpred
        exact List.mem_map.mpr ⟨rot2, hm, hpred⟩
      rw [if_pos (List.mem_append.mpr (Or.inr hmem))]
      unfold interpBone
      rw [h1, h2]
    | none =>
      rw [if_neg]
      intro hmem
      rcases List.mem_append.mp hmem with hm | hm
      · exact ((find?_bone_none kf1.rotations b).mp h1) hm
      · exact ((find?_bone_none kf2.rotations b).mp h2) hm

theorem rot_scale_one (r : Rot) :
    (⟨r.x.map (· * 1), r.y.map (· * 1), r.z.map (· * 1)⟩ : Rot) = r := by
  rcases r with ⟨x, y, z⟩
  cases x <;> cases y <;> cases z <;> simp

theorem applyIntensity_lookup (i : ℚ) (l : List (String × Rot)) (b : String) :
    lookupBone (applyIntensity i l) b
      = (lookupBone l b).map
          (fun r => ⟨r.x.map (· * i), r.y.map (· * i), r.z.map (· * i)⟩) := by
  unfold applyIntensity
  by_cases hi : i = 1
  · subst hi
    rw [if_pos rfl]
    cases h : lookupBone l b with
    | none => rfl
    | some r => rw [Option.map_some', rot_scale_one]
  · rw [if_neg hi]
    induction l with
    | nil => rfl
    | cons hd tl ih =>
      unfold lookupBone at ih ⊢
      by_cases h : hd.1 = b
      · rw [List.map_cons, List.find?_cons_of_pos _ (by simp [h]),
          List.find?_cons_of_pos _ (by simp [h])]
        rfl
      · rw [List.map_cons, List.find?_cons_of_neg _ (by simp [h]),
          List.find?_cons_of_neg _ (by simp [h])]
        exact ih

theorem findBracket_exists :
    ∀ (rest : List GestureKeyframe) (a b : GestureKeyframe) (p : ℚ),
      a.time ≤ p → p ≤ ((a :: b :: rest).getLast (List.cons_ne_nil _ _)).time →
      ∃ pair, findBracket p (a :: b :: rest) = some pair := by
  intro rest
  induction rest with
  | nil =>
    intro a b p hh hl
    refine ⟨(a, b), ?_⟩
    simp only [findBracket]
    rw [if_pos ⟨hh, by simpa [List.getLast] using hl⟩]
  | cons c rest' ih =>
    intro a b p hh hl
    by_cases hab : p ≥ a.time ∧ p ≤ b.time
    · exact ⟨(a, b), by simp only [findBracket]; rw [if_pos hab]⟩
    · have hb : b.time ≤ p := by
        rcases not_and_or.mp hab with h | h
        · exact absurd hh (by simpa using h)
        · linarith [not_le.mp h]
      have hl' : p ≤ ((b :: c :: rest').getLast (List.cons_ne_nil _ _)).time := by
        have : (a :: b :: c :: rest').getLast (List.cons_ne_nil _ _)
            = (b :: c :: rest').getLast (List.cons_ne_nil _ _) := by
          simp [List.getLast]
        rw [this] at hl
        exact hl
      obtain ⟨pair, hp⟩ := ih b c p hb hl'
      refine ⟨pair, ?_⟩
      simp only [findBracket]
      rw [if_neg hab]
      exact hp

/-- C9: rotation sampling brackets the progress with the first adjacent
keyframe pair found by linear scan, computes the local progress
`(p - kf1.time) / (kf2.time - kf1.time)` (0 on a degenerate interval),
applies the default ease-in-out easing `t < 0.5 ? 2t² : 1 - (-2t+2)²/2`,
interpolates each axis present in both keyframes linearly and passes
through an axis present in only one keyframe unmodified, and finally
scales every axis by the active gesture's intensity.  For every library
gesture and progress in `[0, 1]` a bracketing pair exists, so the
outside-all-pairs fallback never engages. -/
theorem gesture_rotation_sampling_spec :
    (∀ t : ℚ, easeInOut t = if t < 0.5 then 2 * t * t else 1 - (-2 * t + 2) ^ 2 / 2)
    ∧ (∀ (a b : GestureKeyframe) (rest : List GestureKeyframe) (p : ℚ),
        findBracket p (a :: b :: rest)
          = if p ≥ a.time ∧ p ≤ b.time then some (a, b) else findBracket p (b :: rest))
    ∧ (∀ (g : GestureDefinition) (p : ℚ) (kf1 kf2 : GestureKeyframe),
        findBracket p g.keyframes = some (kf1, kf2) →
        getGestureRotations g p
          = interpolateKeyframes kf1 kf2
              (if kf2.time > kf1.time then (p - kf1.time) / (kf2.time - kf1.time) else 0))
    ∧ (∀ (ty : GestureType) (p : ℚ), 0 ≤ p → p ≤ 1 →
        ∃ pair, findBracket p (GESTURE_LIBRARY ty).keyframes = some pair)
    ∧ (∀ (kf1 kf2 : GestureKeyframe) (p : ℚ) (b : String),
        lookupBone (interpolateKeyframes kf1 kf2 p) b
          = match kf1.rotations.find? (fun r => r.bone = b),
                  kf2.rotations.find? (fun r => r.bone = b) with
            | some rot1, some rot2 => some ⟨lerpAxis rot1.x rot2.x (easeInOut p),
                lerpAxis rot1.y rot2.y (easeInOut p), lerpAxis rot1.z rot2.z (easeInOut p)⟩
            | some rot1, none => some ⟨rot1.x, rot1.y, rot1.z⟩
            | none, some rot2 => some ⟨rot2.x, rot2.y, rot2.z⟩
            | none, none => none)
    ∧ (∀ (active : Gesture) (p : ℚ) (b : String),
        lookupBone (getCurrentGestureRotations active p) b
          = (lookupBone (getGestureRotations (GESTURE_LIBRARY active.type) p) b).map
              (fun r => ⟨r.x.map (· * active.intensity), r.y.map (· * active.intensity),
                r.z.map (· * active.intensity)⟩)) := by
  refine ⟨fun t => rfl, fun a b rest p => rfl, ?_, ?_, interpolate_lookup, ?_⟩
  · intro g p kf1 kf2 hb
    cases hk : g.keyframes with
    | nil => rw [hk] at hb; exact absurd hb (by simp [findBracket])
    | cons k0 ks =>
      rw [hk] at hb
      unfold getGestureRotations
      rw [hk]
      dsimp only
      rw [hb]
      rfl
  · intro ty p h0 h1
    cases ty <;> exact findBracket_exists _ _ _ p h0 h1
  · intro active p b
    exact applyIntensity_lookup active.intensity _ b

/-- Witness for C9: sampling `headNod` at progress 0.45 with intensity 0.5
brackets between the keyframes at times 0.3 and 0.6, interpolates at local
progress 0.5 (eased to 0.5), and scales the resulting head-x axis by the
intensity. -/
theorem gesture_rotation_sampling_witness :
    findBracket 0.45 (GESTURE_LIBRARY .headNod).keyframes
      = some (⟨0.3, [⟨"head", some 0.15, none, none⟩]⟩,
          ⟨0.6, [⟨"head", some (-0.05), none, none⟩]⟩)
    ∧ getGestureRotations (GESTURE_LIBRARY .headNod) 0.45
      = interpolateKeyframes ⟨0.3, [⟨"head", some 0.15, none, none⟩]⟩
          ⟨0.6, [⟨"head", some (-0.05), none, none⟩]⟩ 0.5
    ∧ lookupBone (getCurrentGestureRotations ⟨.headNod, 0.25, 0.5⟩ 0.45) "head"
      = some ⟨some 0.025, none, none⟩ := by
  have hbr : findBracket 0.45 (GESTURE_LIBRARY .headNod).keyframes
      = some (⟨0.3, [⟨"head", some 0.15, none, none⟩]⟩,
          ⟨0.6, [⟨"head", some (-0.05), none, none⟩]⟩) := by
    with_unfolding_all decide
  have h2 := gesture_rotation_sampling_spec.2.2.1 (GESTURE_LIBRARY .headNod) 0.45
    ⟨0.3, [⟨"head", some 0.15, none, none⟩]⟩
    ⟨0.6, [⟨"head", some (-0.05), none, none⟩]⟩ hbr
  refine ⟨hbr, ?_, ?_⟩
  · rw [h2]
    norm_num
  · have h3 := gesture_rotation_sampling_spec.2.2.2.2.2 ⟨.headNod, 0.25, 0.5⟩ 0.45 "head"
    rw [h3]
    have hbase : lookupBone (getGestureRotations (GESTURE_LIBRARY .headNod) 0.45) "head"
        = some ⟨some 0.05, none, none⟩ := by
      with_unfolding_all decide
    rw [hbase]
    simp only [Option.map_some']
    norm_num

/-! ### C3: character-to-category mapping in the Timeline Builder -/

/-- C3 counterexample: on the alignment spelling `t`,`h` the Timeline
Builder emits two events `DD`, `sil` from the single-character table — it
never consults the digraph table (which maps "th" to `TH`, as
`getVisemeAtIndex` would) and never consumes two input positions. -/
theorem timeline_ignores_digraphs :
    (generateVisemeTimeline thAlignment).map (fun c => c.viseme) = [.DD, .sil]
    ∧ digraphTableLookup 't' 'h' = some .TH
    ∧ getVisemeAtIndex ['t', 'h'] 0 = (.TH, true)
    ∧ ∀ c ∈ generateVisemeTimeline thAlignment, c.viseme ≠ .TH := by
  with_unfolding_all decide

/-- C3 (amended): the Timeline Builder maps each alignment character
independently through the single-character table (`charToViseme`, lowercase
lookup falling back to silence); the two-character digraph lookup exists
only in `getVisemeAtIndex`, which does check the digraph table first and
reports a two-position consumption, but the builder does not use it. -/
theorem char_mapping_spec :
    (∀ (a : AlignmentData) (c : VisemeCue), c ∈ rawCues a →
      ∃ (i : ℕ) (ch : Char), a.characters.get? i = some ch ∧ c.viseme = charToViseme ch)
    ∧ (∀ (text : List Char) (i : ℕ) (x y : Char) (v : Viseme),
        text.get? i = some x → text.get? (i + 1) = some y →
        digraphTableLookup x.toLower y.toLower = some v →
        getVisemeAtIndex text i = (v, true))
    ∧ (∀ (text : List Char) (i : ℕ) (x : Char),
        text.get? i = some x →
        (∀ y, text.get? (i + 1) = some y → digraphTableLookup x.toLower y.toLower = none) →
        getVisemeAtIndex text i = ((charTableLookup x.toLower).getD .sil, false))
    ∧ (∀ c : Char, charTableLookup c.toLower = none → charToViseme c = .sil) := by
  refine ⟨?_, ?_, ?_, ?_⟩
  · intro a c hc
    obtain ⟨i, _, hf⟩ := List.mem_filterMap.mp hc
    cases hch : a.characters.get? i with
    | none => rw [hch] at hf; simp at hf
    | some ch =>
      cases hs : a.character_start_times_seconds.get? i with
      | none => rw [hch, hs] at hf; simp at hf
      | some s =>
        cases he : a.character_end_times_seconds.get? i with
        | none => rw [hch, hs, he] at hf; simp at hf
        | some e =>
          rw [hch, hs, he] at hf
          dsimp only at hf
          by_cases hge : s ≥ e
          · rw [if_pos hge] at hf
            simp at hf
          · rw [if_neg hge, Option.some.injEq] at hf
            exact ⟨i, ch, hch, by rw [← hf]⟩
  · intro text i x y v hx hy hdig
    unfold getVisemeAtIndex
    rw [hx, hy]
    dsimp only
    rw [hdig]
  · intro text i x hx hdig
    unfold getVisemeAtIndex
    cases hy : text.get? (i + 1) with
    | none => rw [hx]
    | some y =>
      rw [hx]
      dsimp only
      rw [hdig y hy]
  · intro c hnone
    unfold charToViseme
    rw [hnone]
    rfl

/-- Witness for C3's amended statement: the first raw cue of the `t`,`h`
alignment comes from the single-character mapping (`charToViseme`), while
`getVisemeAtIndex` on the same text takes the digraph path, and an unknown
character maps to silence. -/
theorem char_mapping_witness :
    (∃ (i : ℕ) (ch : Char), thAlignment.characters.get? i = some ch
      ∧ (⟨.DD, 0, 0.1⟩ : VisemeCue).viseme = charToViseme ch)
    ∧ getVisemeAtIndex ['t', 'h'] 0 = (.TH, true)
    ∧ getVisemeAtIndex ['t'] 0 = ((charTableLookup 't').getD .sil, false)
    ∧ charToViseme '§' = .sil := by
  refine ⟨?_, ?_, ?_, ?_⟩
  · exact char_mapping_spec.1 thAlignment ⟨.DD, 0, 0.1⟩ (by with_unfolding_all decide)
  · exact char_mapping_spec.2.1 ['t', 'h'] 0 't' 'h' .TH rfl rfl (by decide)
  · exact char_mapping_spec.2.2.1 ['t'] 0 't' rfl (by intro y hy; simp at hy)
  · exact char_mapping_spec.2.2.2 '§' (by decide)

/-! ### C1: timeline ordering, overlap and gap invariants -/

theorem getLast?_cons_ne (a : VisemeCue) (l : List VisemeCue) (h : l ≠ []) :
    (a :: l).getLast? = l.getLast? := by
  cases l with
  | nil => exact absurd rfl h
  | cons b t => exact List.getLast?_cons_cons

theorem mergeAux_spec :
    ∀ (l : List VisemeCue) (last : VisemeCue),
      (last :: l).Chain' (fun c d => c.endTime ≤ d.startTime) →
      (∀ c ∈ last :: l, 0 ≤ c.startTime ∧ c.startTime < c.endTime) →
      (mergeAux last l).Chain' (fun c d => c.endTime ≤ d.startTime)
      ∧ (∀ c ∈ mergeAux last l, 0 ≤ c.startTime ∧ c.startTime < c.endTime)
      ∧ (mergeAux last l).head?.map (fun c => c.startTime) = some last.startTime
      ∧ (mergeAux last l).getLast?.map (fun c => c.endTime)
          = ((last :: l).getLast?).map (fun c => c.endTime) := by
  intro l
  induction l with
  | nil =>
    intro last _ hwf
    refine ⟨List.chain'_singleton _, ?_, rfl, rfl⟩
    intro c hc
    simp only [mergeAux, List.mem_singleton] at hc
    exact hc ▸ hwf last (List.mem_cons_self _ _)
  | cons c rest ih =>
    intro last hchain hwf
    have hlc : last.endTime ≤ c.startTime := (List.chain'_cons.mp hchain).1
    have hcrest := (List.chain'_cons.mp hchain).2
    simp only [mergeAux]
    split_ifs with hm
    · have hch : (VisemeCue.mk last.viseme last.startTime c.endTime :: rest).Chain'
          (fun c d => c.endTime ≤ d.startTime) := by
        refine List.Chain'.cons' hcrest.tail ?_
        intro y hy
        exact (List.chain'_cons'.mp hcrest).1 y hy
      have hwfm : ∀ d ∈ VisemeCue.mk last.viseme last.startTime c.endTime :: rest,
          0 ≤ d.startTime ∧ d.startTime < d.endTime := by
        intro d hd
        rcases List.mem_cons.mp hd with rfl | hd
        · have h1 := hwf last (List.mem_cons_self _ _)
          have h2 := hwf c (List.mem_cons_of_mem _ (List.mem_cons_self _ _))
          exact ⟨h1.1, by dsimp only; linarith⟩
        · exact hwf d (List.mem_cons_of_mem _ (List.mem_cons_of_mem _ hd))
      obtain ⟨ih1, ih2, ih3, ih4⟩ := ih _ hch hwfm
      refine ⟨ih1, ih2, ih3, ?_⟩
      rw [ih4]
      cases rest with
      | nil => rfl
      | cons d rest' =>
        rw [List.getLast?_cons_cons, List.getLast?_cons_cons, List.getLast?_cons_cons]
    · have hwfc : ∀ d ∈ c :: rest, 0 ≤ d.startTime ∧ d.startTime < d.endTime :=
        fun d hd => hwf d (List.mem_cons_of_mem _ hd)
      obtain ⟨ih1, ih2, ih3, ih4⟩ := ih c hcrest hwfc
      have hne : mergeAux c rest ≠ [] := by
        intro h
        rw [h] at ih3
        simp at ih3
      refine ⟨?_, ?_, rfl, ?_⟩
      · refine List.Chain'.cons' ih1 ?_
        intro y hy
        have hys : y.startTime = c.startTime := by
          cases hh : (mergeAux c rest).head? with
          | none => rw [hh] at hy; simp at hy
          | some z =>
            rw [hh] at ih3 hy
            simp only [Option.map_some', Option.some.injEq] at ih3
            simp only [Option.mem_some_iff] at hy
            rw [← hy]
            exact ih3
        show last.endTime ≤ y.startTime
        rw [hys]
        exact hlc
      · intro d hd
        rcases List.mem_cons.mp hd with rfl | hd
        · exact hwf _ (List.mem_cons_self _ _)
        · exact ih2 d hd
      · rw [getLast?_cons_ne _ _ hne, ih4, List.getLast?_cons_cons]

theorem mergeCues_spec (l : List VisemeCue)
    (hchain : l.Chain' (fun c d => c.endTime ≤ d.startTime))
    (hwf : ∀ c ∈ l, 0 ≤ c.startTime ∧ c.startTime < c.endTime) :
    (mergeCues l).Chain' (fun c d => c.endTime ≤ d.startTime)
    ∧ (∀ c ∈ mergeCues l, 0 ≤ c.startTime ∧ c.startTime < c.endTime)
    ∧ (mergeCues l).head?.map (fun c => c.startTime) = l.head?.map (fun c => c.startTime)
    ∧ (mergeCues l).getLast?.map (fun c => c.endTime) = l.getLast?.map (fun c => c.endTime) := by
  cases l with
  | nil => exact ⟨List.chain'_nil, by simp [mergeCues], rfl, rfl⟩
  | cons c rest =>
    obtain ⟨h1, h2, h3, h4⟩ := mergeAux_spec rest c hchain hwf
    exact ⟨h1, h2, h3, h4⟩

theorem prependSilence_spec (l : List VisemeCue)
    (hchain : l.Chain' (fun c d => c.endTime ≤ d.startTime))
    (hwf : ∀ c ∈ l, 0 ≤ c.startTime ∧ c.startTime < c.endTime) :
    (prependSilence l).Chain' (fun c d => c.endTime ≤ d.startTime)
    ∧ (∀ c ∈ prependSilence l, 0 ≤ c.startTime ∧ c.startTime < c.endTime)
    ∧ (l ≠ [] → (prependSilence l).head?.map (fun c => c.startTime) = some 0)
    ∧ (prependSilence l).getLast?.map (fun c => c.endTime)
        = l.getLast?.map (fun c => c.endTime) := by
  cases l with
  | nil => exact ⟨List.chain'_nil, by simp [prependSilence], fun h => absurd rfl h, rfl⟩
  | cons first rest =>
    simp only [prependSilence]
    split_ifs with h0
    · refine ⟨?_, ?_, fun _ => rfl, ?_⟩
      · refine List.Chain'.cons' hchain ?_
        intro y hy
        simp only [List.head?_cons, Option.mem_some_iff] at hy
        show first.startTime ≤ y.startTime
        rw [← hy]
      · intro d hd
        rcases List.mem_cons.mp hd with rfl | hd
        · exact ⟨le_rfl, h0⟩
        · exact hwf d hd
      · rw [List.getLast?_cons_cons]
    · have heq : first.startTime = 0 :=
        le_antisymm (not_lt.mp h0) (hwf first (List.mem_cons_self _ _)).1
      refine ⟨hchain, hwf, fun _ => ?_, rfl⟩
      simp [heq]

theorem fillAux_spec :
    ∀ (l : List VisemeCue) (prev : VisemeCue),
      (prev :: l).Chain' (fun c d => c.endTime ≤ d.startTime) →
      (∀ c ∈ prev :: l, 0 ≤ c.startTime ∧ c.startTime < c.endTime) →
      (prev :: fillAux prev l).Chain'
        (fun c d => c.endTime ≤ d.startTime ∧ d.startTime ≤ c.endTime + 0.01)
      ∧ (∀ c ∈ prev :: fillAux prev l, 0 ≤ c.startTime ∧ c.startTime < c.endTime)
      ∧ (prev :: fillAux prev l).getLast?.map (fun c => c.endTime)
          = ((prev :: l).getLast?).map (fun c => c.endTime) := by
  intro l
  induction l with
  | nil => intro prev _ hwf; exact ⟨List.chain'_singleton _, hwf, rfl⟩
  | cons c rest ih =>
    intro prev hchain hwf
    have hpc : prev.endTime ≤ c.startTime := (List.chain'_cons.mp hchain).1
    have hcrest := (List.chain'_cons.mp hchain).2
    have hwfc : ∀ d ∈ c :: rest, 0 ≤ d.startTime ∧ d.startTime < d.endTime :=
      fun d hd => hwf d (List.mem_cons_of_mem _ hd)
    obtain ⟨ih1, ih2, ih3⟩ := ih c hcrest hwfc
    simp only [fillAux]
    split_ifs with hgap
    · refine ⟨?_, ?_, ?_⟩
      · refine List.Chain'.cons ⟨le_rfl, by norm_num⟩ ?_
        exact List.Chain'.cons ⟨le_rfl, by norm_num⟩ ih1
      · intro d hd
        rcases List.mem_cons.mp hd with rfl | hd
        · exact hwf _ (List.mem_cons_self _ _)
        rcases List.mem_cons.mp hd with rfl | hd
        · have h1 := hwf prev (List.mem_cons_self _ _)
          exact ⟨by dsimp only; linarith, by dsimp only; linarith⟩
        · exact ih2 d hd
      · rw [List.getLast?_cons_cons, List.getLast?_cons_cons, ih3, List.getLast?_cons_cons]
    · refine ⟨?_, ?_, ?_⟩
      · exact List.Chain'.cons ⟨hpc, not_lt.mp hgap⟩ ih1
      · intro d hd
        rcases List.mem_cons.mp hd with rfl | hd
        · exact hwf _ (List.mem_cons_self _ _)
        · exact ih2 d hd
      · rw [List.getLast?_cons_cons, ih3, List.getLast?_cons_cons]

theorem fillGaps_spec (l : List VisemeCue)
    (hchain : l.Chain' (fun c d => c.endTime ≤ d.startTime))
    (hwf : ∀ c ∈ l, 0 ≤ c.startTime ∧ c.startTime < c.endTime) :
    (fillGaps l).Chain'
      (fun c d => c.endTime ≤ d.startTime ∧ d.startTime ≤ c.endTime + 0.01)
    ∧ (∀ c ∈ fillGaps l, 0 ≤ c.startTime ∧ c.startTime < c.endTime)
    ∧ (fillGaps l).head?.map (fun c => c.startTime) = l.head?.map (fun c => c.startTime)
    ∧ (fillGaps l).getLast?.map (fun c => c.endTime) = l.getLast?.map (fun c => c.endTime) := by
  cases l with
  | nil => exact ⟨List.chain'_nil, by simp [fillGaps], rfl, rfl⟩
  | cons c rest =>
    obtain ⟨h1, h2, h3⟩ := fillAux_spec rest c hchain hwf
    exact ⟨h1, h2, rfl, h3⟩

theorem rawCues_lt (a : AlignmentData) : ∀ c ∈ rawCues a, c.startTime < c.endTime := by
  intro c hc
  obtain ⟨i, _, hf⟩ := List.mem_filterMap.mp hc
  cases hch : a.characters.get? i with
  | none => rw [hch] at hf; simp at hf
  | some ch =>
    cases hs : a.character_start_times_seconds.get? i with
    | none => rw [hch, hs] at hf; simp at hf
    | some s =>
      cases he : a.character_end_times_seconds.get? i with
      | none => rw [hch, hs, he] at hf; simp at hf
      | some e =>
        rw [hch, hs, he] at hf
        dsimp only at hf
        by_cases hge : s ≥ e
        · rw [if_pos hge] at hf
          simp at hf
        · rw [if_neg hge, Option.some.injEq] at hf
          rw [← hf]
          exact not_le.mp hge

theorem rawCues_of_empty (a : AlignmentData) (h : a.characters.length = 0) :
    rawCues a = [] := by
  unfold rawCues
  rw [h]
  rfl

/-- C1 (amended): for every valid alignment input (ordered, non-overlapping
valid entries with non-negative start times), the built event sequence is
monotonically ordered by start time and non-overlapping, every event is
well-formed, the first event starts at 0, the last event ends at the final
valid character's end time, and the gap between consecutive events never
exceeds 10 ms (gaps larger than 10 ms are filled with silence; gaps of at
most 10 ms may remain, so the sequence need not be exactly contiguous). -/
theorem timeline_invariants (a : AlignmentData)
    (hchain : (rawCues a).Chain' (fun c d => c.endTime ≤ d.startTime))
    (hpos : ∀ c ∈ rawCues a, 0 ≤ c.startTime) :
    (generateVisemeTimeline a).Chain'
      (fun c d => c.endTime ≤ d.startTime ∧ d.startTime ≤ c.endTime + 0.01)
    ∧ (∀ c ∈ generateVisemeTimeline a, 0 ≤ c.startTime ∧ c.startTime < c.endTime)
    ∧ (rawCues a ≠ [] →
        (generateVisemeTimeline a).head?.map (fun c => c.startTime) = some 0
        ∧ (generateVisemeTimeline a).getLast?.map (fun c => c.endTime)
            = (rawCues a).getLast?.map (fun c => c.endTime)) := by
  have hraw_wf : ∀ c ∈ rawCues a, 0 ≤ c.startTime ∧ c.startTime < c.endTime :=
    fun c hc => ⟨hpos c hc, rawCues_lt a c hc⟩
  by_cases hempty : a.characters.length = 0
  · have hr := rawCues_of_empty a hempty
    have hout : generateVisemeTimeline a = [] := by
      unfold generateVisemeTimeline
      rw [if_pos hempty]
    rw [hout]
    exact ⟨List.chain'_nil, by simp, fun h => absurd hr h⟩
  · have hout : generateVisemeTimeline a
        = fillGaps (prependSilence (mergeCues (rawCues a))) := by
      unfold generateVisemeTimeline
      rw [if_neg hempty]
    obtain ⟨m1, m2, m3, m4⟩ := mergeCues_spec (rawCues a) hchain hraw_wf
    obtain ⟨p1, p2, p3, p4⟩ := prependSilence_spec (mergeCues (rawCues a)) m1 m2
    obtain ⟨f1, f2, f3, f4⟩ := fillGaps_spec (prependSilence (mergeCues (rawCues a))) p1 p2
    rw [hout]
    refine ⟨f1, f2, fun hne => ⟨?_, ?_⟩⟩
    · have hm_ne : mergeCues (rawCues a) ≠ [] := by
        intro h
        rw [h] at m3
        cases hr : rawCues a with
        | nil => exact hne hr
        | cons x xs => rw [hr] at m3; simp at m3
      rw [f3, p3 hm_ne]
    · rw [f4, p4, m4]

/-- C1 counterexample: a valid, ordered alignment with a 5 ms gap between
two different-category characters.  The builder leaves the gap unfilled
(only gaps exceeding 10 ms get silence), so consecutive events do not share
a boundary and the instant 0.102 inside `[0, totalDuration]` lies in no
event — the sequence is not contiguous as the claim states. -/
theorem timeline_not_contiguous :
    ((rawCues gapAlignment).Chain' (fun c d => c.endTime ≤ d.startTime)
      ∧ ∀ c ∈ rawCues gapAlignment, 0 ≤ c.startTime)
    ∧ generateVisemeTimeline gapAlignment = [⟨.aa, 0, 0.1⟩, ⟨.PP, 0.105, 0.2⟩]
    ∧ ¬ (generateVisemeTimeline gapAlignment).Chain' (fun c d => c.endTime = d.startTime)
    ∧ (∀ c ∈ generateVisemeTimeline gapAlignment,
        ¬ (c.startTime ≤ 0.102 ∧ (0.102 : ℚ) < c.endTime)) := by
  have hraw : rawCues gapAlignment = [⟨.aa, 0, 0.1⟩, ⟨.PP, 0.105, 0.2⟩] := by
    with_unfolding_all decide
  have heq : generateVisemeTimeline gapAlignment = [⟨.aa, 0, 0.1⟩, ⟨.PP, 0.105, 0.2⟩] := by
    with_unfolding_all decide
  refine ⟨⟨?_, ?_⟩, heq, ?_, ?_⟩
  · rw [hraw]
    exact List.chain'_cons.mpr ⟨by norm_num, List.chain'_singleton _⟩
  · intro c hc
    rw [hraw] at hc
    simp only [List.mem_cons, List.not_mem_nil, or_false] at hc
    rcases hc with rfl | rfl <;> norm_num
  · intro h
    rw [heq] at h
    have := (List.chain'_cons.mp h).1
    norm_num at this
  · intro c hc
    rw [heq] at hc
    simp only [List.mem_cons, List.not_mem_nil, or_false] at hc
    rcases hc with rfl | rfl
    · rintro ⟨-, h2⟩
      norm_num at h2
    · rintro ⟨h1, -⟩
      norm_num at h1

/-- Witness for C1's amended statement on the spec's own example alignment
`h`,`i`,`!`. -/
theorem timeline_invariants_witness :
    (rawCues hiAlignment).Chain' (fun c d => c.endTime ≤ d.startTime)
    ∧ (∀ c ∈ rawCues hiAlignment, 0 ≤ c.startTime)
    ∧ (generateVisemeTimeline hiAlignment).Chain'
        (fun c d => c.endTime ≤ d.startTime ∧ d.startTime ≤ c.endTime + 0.01)
    ∧ (generateVisemeTimeline hiAlignment).head?.map (fun c => c.startTime) = some 0
    ∧ (generateVisemeTimeline hiAlignment).getLast?.map (fun c => c.endTime)
        = (rawCues hiAlignment).getLast?.map (fun c => c.endTime) := by
  have hraw : rawCues hiAlignment = [⟨.sil, 0, 0.2⟩, ⟨.I, 0.2, 0.4⟩, ⟨.sil, 0.4, 0.5⟩] := by
    with_unfolding_all decide
  have hchain : (rawCues hiAlignment).Chain' (fun c d => c.endTime ≤ d.startTime) := by
    rw [hraw]
    exact List.chain'_cons.mpr ⟨by norm_num,
      List.chain'_cons.mpr ⟨by norm_num, List.chain'_singleton _⟩⟩
  have hpos : ∀ c ∈ rawCues hiAlignment, 0 ≤ c.startTime := by
    intro c hc
    rw [hraw] at hc
    simp only [List.mem_cons, List.not_mem_nil, or_false] at hc
    rcases hc with rfl | rfl | rfl <;> norm_num
  have h := timeline_invariants hiAlignment hchain hpos
  have hne : rawCues hiAlignment ≠ [] := by rw [hraw]; simp
  exact ⟨hchain, hpos, h.1, (h.2.2 hne).1, (h.2.2 hne).2⟩

end AvatarCore
